import Mathlib

/-!
# HD44780 character LCD behind a PCF8574 I2C expander

A shallow embedding of `Drivers/API/Src/lcd_driver.c` and
`Drivers/API/Src/lcd_port.c`, with the constants of
`Drivers/API/Inc/lcd_driver.h`.

* `uint8_t` values are natural numbers below 256; every implicit conversion
  to `uint8_t` of the C code (argument passing, assignment) is written `u8`.
* `int32_t` values are integers; a negation whose result does not fit the
  type has no defined result (`neg32`), division and remainder truncate
  towards zero (`Int.tdiv`, `Int.tmod`).
* The driver is stateful: `World` carries the global `lcd_conf`, the trace of
  everything that reached the outside (bus writes, delays, the UART message,
  the fatal handler) and the behaviour of the I2C transport.
* A call of a driver function either returns (`Res.ok`), ends inside
  `Error_Handler`, which never returns (`Res.halt`), or has undefined
  behaviour because an array is accessed out of bounds or a signed operation
  overflows (`Res.undef`).
-/

namespace LcdDriver

/-! ## Constants of `lcd_driver.h` -/

abbrev LCD_BACKLIGHT : Nat := 0x08
abbrev ENABLE : Nat := 0x04
abbrev MODE_RS_IR : Nat := 0x00
abbrev MODE_RS_DR : Nat := 0x01
abbrev MASK : Nat := 0xF0

abbrev LCD_CLEARDISPLAY : Nat := 0x01
abbrev LCD_RETURNHOME : Nat := 0x02
abbrev LCD_ENTRYMODESET : Nat := 0x04
abbrev LCD_DISPLAYCONTROL : Nat := 0x08
abbrev LCD_FUNCTIONSET : Nat := 0x20
abbrev LCD_SETDDRAMADDR : Nat := 0x80
abbrev LCD_ENTRYLEFT : Nat := 0x02
abbrev LCD_ENTRYSHIFTDECREMENT : Nat := 0x00
abbrev LCD_DISPLAYON : Nat := 0x04
abbrev LCD_DISPLAYOFF : Nat := 0x00
abbrev LCD_CURSOROFF : Nat := 0x00
abbrev LCD_BLINKOFF : Nat := 0x00
abbrev LCD_4BITMODE : Nat := 0x00
abbrev LCD_2LINE : Nat := 0x08
abbrev LCD_5x8DOTS : Nat := 0x00

abbrev LCD_LINE_0 : Nat := 0x00
abbrev LCD_LINE_1 : Nat := 0x40
abbrev LCD_LINE_2 : Nat := 0x14
abbrev LCD_LINE_3 : Nat := 0x54

abbrev FUNCTION_SET_8BIT : Nat := 0x30

/-! ## Machine arithmetic -/

/-- Conversion of an `int` to `uint8_t`: the low eight bits. -/
def u8 (x : Nat) : Nat := x % 256

/-- Conversion to `uint8_t` of `x - 1` for a `uint8_t` value `x`
(`0 - 1` becomes `255`). -/
def u8_pred (x : Nat) : Nat := (x + 255) % 256

/-- Bit pattern of `~x` for a non-negative 32-bit `int` `x`. -/
def not32 (x : Nat) : Nat := 0xFFFFFFFF - x

/-- Largest value of `int32_t`. -/
abbrev INT32_MAX : Int := 2147483647

/-- Unary minus on `int32_t`: `-x` where that is an `int32_t` value; signed
overflow is undefined in C, so there is no result (`none`) otherwise. -/
def neg32 (x : Int) : Option Int :=
  if -x ≤ INT32_MAX then some (-x) else none

/-! ## The outside world -/

/-- Configuration record `I2C_LCD_Conf` of `lcd_driver.h`. -/
structure I2C_LCD_Conf where
  I2C_LCD_nCol : Nat
  I2C_LCD_nRow : Nat
deriving DecidableEq

/-- What the driver does to its environment, in the order it happens. -/
inductive Event where
  | write (valor : Nat)
  | delay (ms : Nat)
  | uart (msg : String)
  | fatal
deriving DecidableEq

/-- Global state of the driver and its environment: the static `lcd_conf`,
the events so far (oldest first), and for each `k` whether the `k`-th call of
the I2C transport (counted from 0) reports `HAL_OK`. -/
structure World where
  lcd_conf : I2C_LCD_Conf
  trace : List Event
  transmit_ok : Nat → Bool

/-- The bytes handed to the I2C transport, oldest first. -/
def busWrites : List Event → List Nat
  | [] => []
  | Event.write v :: es => v :: busWrites es
  | _ :: es => busWrites es

/-- Outcome of running a piece of driver code. -/
inductive Res (α : Type) where
  | ok (a : α) (w : World)
  | halt (w : World)
  | undef

/-- Continue with `f` after a normal return; a halt or undefined behaviour
ends the run. -/
def Res.andThen {α β : Type} (r : Res α) (f : α → World → Res β) : Res β :=
  match r with
  | Res.ok a w => f a w
  | Res.halt w => Res.halt w
  | Res.undef => Res.undef

/-- Driver code: a function of the world. -/
def Exec (α : Type) : Type := World → Res α

instance : Monad Exec where
  pure a := fun w => Res.ok a w
  bind m f := fun w => (m w).andThen f

/-- Append events to the trace. -/
def World.log (w : World) (es : List Event) : World :=
  { w with trace := w.trace ++ es }

/-- Read the global `lcd_conf`. -/
def getConf : Exec I2C_LCD_Conf := fun w => Res.ok w.lcd_conf w

/-- Assign the global `lcd_conf`. -/
def setConf (c : I2C_LCD_Conf) : Exec Unit := fun w => Res.ok () { w with lcd_conf := c }

/-- An array access that is out of bounds (`none`) is undefined behaviour. -/
def orUndef {α : Type} : Option α → Exec α
  | some a => pure a
  | none => fun _ => Res.undef

/-- Record one event and return. -/
def emit (e : Event) : Exec Unit := fun w => Res.ok () (w.log [e])

/-- Modelled from the spec: `HAL_Delay` of the vendor HAL is not part of the
sources; the blocking settle delay of the given number of milliseconds is
recorded as an event. -/
def HAL_Delay (ms : Nat) : Exec Unit := emit (Event.delay ms)

/-- Modelled from the spec: `uartSendString` (`API_uart.h`) is not part of the
sources; the message is recorded as an event. -/
def uartSendString (msg : String) : Exec Unit := emit (Event.uart msg)

/-- Modelled from the spec: `Error_Handler` is declared in the headers and defined
outside the sources; it is the process-wide fatal hook which "does not return
control to the caller". -/
def Error_Handler : Exec Unit := fun w => Res.halt (w.log [Event.fatal])

/-- Modelled from the spec: `HAL_I2C_Master_Transmit` of the vendor HAL is not
part of the sources; it is the blocking single-byte write
`BusTransport.write(deviceAddress, byte) -> success|failure`. The byte is
recorded, the result (`true` for `HAL_OK`) is the transport's answer for this
call. -/
def HAL_I2C_Master_Transmit (valor : Nat) : Exec Bool := fun w =>
  Res.ok (w.transmit_ok (busWrites w.trace).length) (w.log [Event.write valor])

/-! ## `lcd_port.c` -/

/-- Function `LCD_PortI2C_WriteRegister` of `lcd_port.c`. -/
def LCD_PortI2C_WriteRegister (valor : Nat) : Exec Unit := do
  let hal_ok ← HAL_I2C_Master_Transmit valor
  if hal_ok then
    pure ()
  else do
    uartSendString "ERROR HANDLER LCD WRITE!\r\n"
    Error_Handler

/-! ## `lcd_driver.c`: nibble protocol -/

/-- Function `LCD_SendNibble` of `lcd_driver.c`. -/
def LCD_SendNibble (nibble mode : Nat) : Exec Unit := do
  let data := u8 ((nibble &&& MASK) ||| LCD_BACKLIGHT ||| mode)
  LCD_PortI2C_WriteRegister (u8 (data ||| ENABLE))
  HAL_Delay 5
  LCD_PortI2C_WriteRegister (u8 (data &&& not32 ENABLE))

/-- Function `LCD_SendCommand` of `lcd_driver.c`. -/
def LCD_SendCommand (cmd : Nat) : Exec Unit := do
  LCD_SendNibble cmd MODE_RS_IR
  LCD_SendNibble (u8 (cmd <<< 4)) MODE_RS_IR
  HAL_Delay 2

/-- Function `LCD_SendData` of `lcd_driver.c`. -/
def LCD_SendData (data : Nat) : Exec Unit := do
  LCD_SendNibble data MODE_RS_DR
  LCD_SendNibble (u8 ((data <<< 4) &&& MASK)) MODE_RS_DR
  HAL_Delay 1

/-! ## `lcd_driver.c`: strings and buffers -/

/-- A `char` array: one cell per element, `none` while the cell has never been
written. -/
abbrev Buf : Type := List (Option Char)

/-- A local array `char buf[n]`, not initialised. -/
def Buf.alloc (n : Nat) : Buf := List.replicate n none

/-- Assignment `buf[i] = c`; `none` when `i` is outside the array. -/
def Buf.store (buf : Buf) (i : Nat) (c : Char) : Option Buf :=
  if i < buf.length then some (buf.set i (some c)) else none

/-- The C string held in a buffer: the characters before the first NUL;
`none` when a cell that was never written, or the end of the array, is reached
first. -/
def Buf.cstr : Buf → Option (List Char)
  | [] => none
  | none :: _ => none
  | some c :: rest => if c = '\x00' then some [] else (Buf.cstr rest).map (c :: ·)

/-- Library function `strlen`: a text is given by its characters, and ends at
its first NUL or at the end of the list. -/
def strlen : List Char → Nat
  | [] => 0
  | c :: s => if c = '\x00' then 0 else strlen s + 1

/-- Library function `strncpy(dest, src, n)`, writing from index `i` on:
exactly `n` characters are written, those of `src` up to its end and NUL
after that. -/
def strncpy_from : Buf → Nat → List Char → Nat → Option Buf
  | dest, _, _, 0 => some dest
  | dest, i, [], n + 1 => (dest.store i '\x00').bind fun d => strncpy_from d (i + 1) [] n
  | dest, i, c :: src, n + 1 =>
    if c = '\x00' then (dest.store i '\x00').bind fun d => strncpy_from d (i + 1) [] n
    else (dest.store i c).bind fun d => strncpy_from d (i + 1) src n

/-- Library function `strncpy(dest, src, n)`. -/
def strncpy (dest : Buf) (src : List Char) (n : Nat) : Option Buf :=
  strncpy_from dest 0 src n

/-- The loop `for (i = start; i < stop; i++) buf[i] = ' ';`, given its number
of iterations `stop - start`. -/
def fill_spaces : Buf → Nat → Nat → Option Buf
  | buf, _, 0 => some buf
  | buf, i, k + 1 => (buf.store i ' ').bind fun b => fill_spaces b (i + 1) k

/-- Conversion `%d` of `sprintf`. -/
def printf_d (x : Int) : List Char :=
  if x < 0 then '-' :: Nat.toDigits 10 x.natAbs else Nat.toDigits 10 x.toNat

/-- Conversion `%02d` of `sprintf`: at least two characters, zeros added on
the left. -/
def printf_02d (x : Int) : List Char :=
  if (printf_d x).length < 2 then '0' :: printf_d x else printf_d x

/-- A `sprintf` into an array of `cap` characters: the text and its NUL have
to fit. -/
def sprintf_into (cap : Nat) (s : List Char) : Option (List Char) :=
  if s.length + 1 ≤ cap then some s else none

/-- Function `FormatIntDecimal` of `lcd_driver.c`: the text written to `buf`;
`none` where the negation of `value` overflows. -/
def FormatIntDecimal (value : Int) (decimals : Nat) : Option (List Char) := do
  let abs_value ← if value < 0 then neg32 value else some value
  let ent := Int.tdiv abs_value 100
  let dec := Int.tmod abs_value 100
  if value < 0 then
    if decimals = 2 then
      some (['-'] ++ printf_d ent ++ ['.'] ++ printf_02d dec)
    else
      some (['-'] ++ printf_d ent ++ ['.'] ++ printf_d (Int.tdiv dec 10))
  else
    if decimals = 2 then
      some (printf_d ent ++ ['.'] ++ printf_02d dec)
    else
      some (printf_d ent ++ ['.'] ++ printf_d (Int.tdiv dec 10))

/-! ## `lcd_driver.c`: display operations -/

/-- Function `LCD_SendString` of `lcd_driver.c`. -/
def LCD_SendString : List Char → Exec Unit
  | [] => HAL_Delay 2
  | c :: str =>
    if c = '\x00' then HAL_Delay 2
    else do
      LCD_SendData (u8 c.toNat)
      LCD_SendString str

/-- Function `LCD_Clear` of `lcd_driver.c`. -/
def LCD_Clear : Exec Unit := do
  LCD_SendCommand LCD_CLEARDISPLAY
  HAL_Delay 2

/-- Function `LCD_Home` of `lcd_driver.c`. -/
def LCD_Home : Exec Unit := do
  LCD_SendCommand LCD_RETURNHOME
  HAL_Delay 2

/-- The local table `row_offsets` of `LCD_SetCursor`. -/
def row_offsets : List Nat := [LCD_LINE_0, LCD_LINE_1, LCD_LINE_2, LCD_LINE_3]

/-- Function `LCD_SetCursor` of `lcd_driver.c`. -/
def LCD_SetCursor (col row : Nat) : Exec Unit := do
  let lcd_conf ← getConf
  let row := if row ≥ lcd_conf.I2C_LCD_nRow then u8_pred lcd_conf.I2C_LCD_nRow else row
  let col := if col ≥ lcd_conf.I2C_LCD_nCol then u8_pred lcd_conf.I2C_LCD_nCol else col
  let offset ← orUndef row_offsets[row]?
  LCD_SendCommand (u8 (LCD_SETDDRAMADDR ||| (col + offset)))

/-- Function `LCD_Print` of `lcd_driver.c`. -/
def LCD_Print (str : List Char) : Exec Unit := do
  LCD_Clear
  LCD_Home
  LCD_SendString str

/-- Function `LCD_PrintLine` of `lcd_driver.c`. -/
def LCD_PrintLine (row : Nat) (text : List Char) : Exec Unit := do
  let lcd_conf ← getConf
  let buf := Buf.alloc (lcd_conf.I2C_LCD_nCol + 1)
  let len := strlen text
  let len := if len > lcd_conf.I2C_LCD_nCol then 20 else len
  let buf ← orUndef (strncpy buf text len)
  let buf ← orUndef (fill_spaces buf len (lcd_conf.I2C_LCD_nCol - len))
  let buf ← orUndef (buf.store lcd_conf.I2C_LCD_nCol '\x00')
  LCD_SetCursor 0 row
  let str ← orUndef buf.cstr
  LCD_SendString str

/-- Function `LCD_Init` of `lcd_driver.c`. -/
def LCD_Init : Exec Unit := do
  HAL_Delay 50
  LCD_SendNibble FUNCTION_SET_8BIT MODE_RS_IR
  HAL_Delay 5
  LCD_SendNibble FUNCTION_SET_8BIT MODE_RS_IR
  HAL_Delay 5
  LCD_SendNibble FUNCTION_SET_8BIT MODE_RS_IR
  HAL_Delay 1
  LCD_SendNibble LCD_FUNCTIONSET MODE_RS_IR
  HAL_Delay 1
  LCD_SendCommand (LCD_FUNCTIONSET ||| LCD_4BITMODE ||| LCD_2LINE ||| LCD_5x8DOTS)
  LCD_SendCommand (LCD_DISPLAYCONTROL ||| LCD_DISPLAYOFF ||| LCD_CURSOROFF ||| LCD_BLINKOFF)
  LCD_SendCommand LCD_CLEARDISPLAY
  HAL_Delay 2
  LCD_SendCommand (LCD_ENTRYMODESET ||| LCD_ENTRYLEFT ||| LCD_ENTRYSHIFTDECREMENT)
  LCD_SendCommand (LCD_DISPLAYCONTROL ||| LCD_DISPLAYON ||| LCD_CURSOROFF ||| LCD_BLINKOFF)

/-- Function `LCD_Begin` of `lcd_driver.c`. -/
def LCD_Begin (cols row : Nat) : Exec Unit := do
  setConf { (← getConf) with I2C_LCD_nCol := cols }
  setConf { (← getConf) with I2C_LCD_nRow := row }
  LCD_Init

/-- Function `LCD_PrintSensorData` of `lcd_driver.c`; the arguments are
`int16_t` values. -/
def LCD_PrintSensorData (temp_x100 gx_x100 ax_x100 : Int) : Exec Unit := do
  let lcd_conf ← getConf
  let lineCap := lcd_conf.I2C_LCD_nCol + 1
  let valueCap := 10
  let value ← orUndef ((FormatIntDecimal temp_x100 1).bind (sprintf_into valueCap))
  let line ← orUndef (sprintf_into lineCap ("Temp: ".toList ++ value ++ " C".toList))
  LCD_PrintLine 0 line
  let value ← orUndef ((FormatIntDecimal gx_x100 2).bind (sprintf_into valueCap))
  let line ← orUndef (sprintf_into lineCap ("Gx: ".toList ++ value ++ " deg/s".toList))
  LCD_PrintLine 1 line
  let value ← orUndef ((FormatIntDecimal ax_x100 2).bind (sprintf_into valueCap))
  let line ← orUndef (sprintf_into lineCap ("Ax: ".toList ++ value ++ " g".toList))
  LCD_PrintLine 2 line

/-! ## Definitions used to state the properties -/

/-- The transport accepts every write. -/
def Healthy (w : World) : Prop := ∀ k, w.transmit_ok k = true

/-- A display configured as `cols` x `rows`, nothing sent yet, on a transport
that accepts every write. -/
def idleWorld (cols rows : Nat) : World :=
  { lcd_conf := { I2C_LCD_nCol := cols, I2C_LCD_nRow := rows },
    trace := [],
    transmit_ok := fun _ => true }

/-- Wire-level encoding of the specification:
`transmittedByte = (nibble & 0xF0) | backlightBit(0x08) | modeBit`. -/
def transmittedByte (nibble modeBit : Nat) : Nat :=
  (nibble &&& 0xF0) ||| 0x08 ||| modeBit

/-- Nibble transfer of the specification: `transmittedByte` once with the
enable bit `0x04` set, then once with it cleared. -/
def nibbleWrites (nibble modeBit : Nat) : List Nat :=
  [transmittedByte nibble modeBit ||| 0x04, transmittedByte nibble modeBit &&& 0xFB]

/-- Byte transfer of the specification: the high nibble, then the low nibble
shifted into the high position, both with the same mode bit. -/
def byteWrites (b modeBit : Nat) : List Nat :=
  nibbleWrites (b &&& 0xF0) modeBit ++ nibbleWrites ((b <<< 4) &&& 0xF0) modeBit

/-- Bus writes of a command of the specification (mode bit `0x00`). -/
def commandWrites (b : Nat) : List Nat := byteWrites b 0x00

/-- Bus writes of a data character of the specification (mode bit `0x01`). -/
def dataWrites (b : Nat) : List Nat := byteWrites b 0x01

/-- Events of `LCD_SendNibble`. -/
def nibbleEvents (nibble mode : Nat) : List Event :=
  [Event.write (u8 (u8 ((nibble &&& MASK) ||| LCD_BACKLIGHT ||| mode) ||| ENABLE)),
   Event.delay 5,
   Event.write (u8 (u8 ((nibble &&& MASK) ||| LCD_BACKLIGHT ||| mode) &&& not32 ENABLE))]

/-- Events of `LCD_SendCommand`. -/
def commandEvents (cmd : Nat) : List Event :=
  nibbleEvents cmd MODE_RS_IR ++ nibbleEvents (u8 (cmd <<< 4)) MODE_RS_IR ++ [Event.delay 2]

/-- Events of `LCD_SendData`. -/
def dataEvents (data : Nat) : List Event :=
  nibbleEvents data MODE_RS_DR ++ nibbleEvents (u8 ((data <<< 4) &&& MASK)) MODE_RS_DR
    ++ [Event.delay 1]

/-- Events of `LCD_Init`. -/
def initEvents : List Event :=
  [Event.delay 50] ++ nibbleEvents 0x30 0 ++ [Event.delay 5] ++ nibbleEvents 0x30 0
    ++ [Event.delay 5] ++ nibbleEvents 0x30 0 ++ [Event.delay 1] ++ nibbleEvents 0x20 0
    ++ [Event.delay 1] ++ commandEvents 0x28 ++ commandEvents 0x08 ++ commandEvents 0x01
    ++ [Event.delay 2] ++ commandEvents 0x06 ++ commandEvents 0x0C

/-- Events of `LCD_SendString` on a text without NUL. -/
def stringEvents : List Char → List Event
  | [] => [Event.delay 2]
  | c :: s => dataEvents (u8 c.toNat) ++ stringEvents s

/-- Bus writes of the data characters of a text, in order. -/
def textWrites : List Char → List Nat
  | [] => []
  | c :: s => dataWrites c.toNat ++ textWrites s

/-- A text as C sees it: no NUL among its characters. -/
abbrev NulFree (s : List Char) : Prop := ∀ c ∈ s, c ≠ '\x00'

/-- The characters of a text before its first NUL. -/
def cText : List Char → List Char
  | [] => []
  | c :: s => if c = '\x00' then [] else c :: cText s

/-- A text followed by the spaces that bring it to `n` characters. -/
def padTo (n : Nat) (s : List Char) : List Char := s ++ List.replicate (n - s.length) ' '

/-- The text `FormatIntDecimal` prints for the non-negative value `v`: the digits
of `v / 100`, a point, and the fraction `v % 100` on two digits or its tens
digit alone. -/
def digitsText (v decimals : Nat) : List Char :=
  if decimals = 2 then Nat.toDigits 10 (v / 100) ++ ['.'] ++ printf_02d ((v % 100 : Nat) : Int)
  else Nat.toDigits 10 (v / 100) ++ ['.'] ++ printf_d ((v % 100 / 10 : Nat) : Int)

/-- The text `FormatIntDecimal` leaves in the buffer `value` of
`LCD_PrintSensorData` (nothing where the call has no defined result, which
no `int16_t` argument reaches). -/
def valueText (x100 : Int) (decimals : Nat) : List Char :=
  (FormatIntDecimal x100 decimals).getD []

/-- First line of `LCD_PrintSensorData`: `"Temp: %s C"`. -/
def tempLine (temp_x100 : Int) : List Char :=
  "Temp: ".toList ++ valueText temp_x100 1 ++ " C".toList

/-- Second line of `LCD_PrintSensorData`: `"Gx: %s deg/s"`. -/
def gyroLine (gx_x100 : Int) : List Char :=
  "Gx: ".toList ++ valueText gx_x100 2 ++ " deg/s".toList

/-- Third line of `LCD_PrintSensorData`: `"Ax: %s g"`. -/
def accelLine (ax_x100 : Int) : List Char :=
  "Ax: ".toList ++ valueText ax_x100 2 ++ " g".toList

/-- Events of `LCD_PrintLine` for a text that fits the width: the cursor
command for the row of table entry `off`, then the padded text. -/
def lineEvents (off nCol : Nat) (s : List Char) : List Event :=
  commandEvents (u8 (0x80 ||| off)) ++ stringEvents (padTo nCol s)

/-- Range of `int16_t`. -/
abbrev IsInt16 (x : Int) : Prop := -32768 ≤ x ∧ x ≤ 32767

/-- How the code of the driver is put together: from pure values, reads of
`lcd_conf`, array accesses, delays and writes through the port, in sequence;
`Built true` also allows assignments to `lcd_conf`. -/
inductive Built : Bool → {α : Type} → Exec α → Prop where
  | pure {cfg : Bool} {α : Type} (a : α) : Built cfg (Pure.pure a : Exec α)
  | getConf {cfg : Bool} : Built cfg getConf
  | setConf (c : I2C_LCD_Conf) : Built true (setConf c)
  | orUndef {cfg : Bool} {α : Type} (x : Option α) : Built cfg (orUndef x)
  | delay {cfg : Bool} (ms : Nat) : Built cfg (HAL_Delay ms)
  | write {cfg : Bool} (valor : Nat) : Built cfg (LCD_PortI2C_WriteRegister valor)
  | bind {cfg : Bool} {α β : Type} {m : Exec α} {f : α → Exec β} :
      Built cfg m → (∀ a, Built cfg (f a)) → Built cfg (m >>= f)

/-- The operations of the driver: the public ones of `lcd_driver.h` and the
static ones of `lcd_driver.c`. -/
inductive Op where
  | begin (cols rows : Nat)
  | clear
  | home
  | setCursor (col row : Nat)
  | sendString (str : List Char)
  | print (str : List Char)
  | printLine (row : Nat) (text : List Char)
  | printSensorData (temp_x100 gx_x100 ax_x100 : Int)
  | sendNibble (nibble mode : Nat)
  | sendCommand (cmd : Nat)
  | sendData (data : Nat)

/-- The code of an operation. -/
def Op.run : Op → Exec Unit
  | Op.begin cols rows => LCD_Begin cols rows
  | Op.clear => LCD_Clear
  | Op.home => LCD_Home
  | Op.setCursor col row => LCD_SetCursor col row
  | Op.sendString str => LCD_SendString str
  | Op.print str => LCD_Print str
  | Op.printLine row text => LCD_PrintLine row text
  | Op.printSensorData t g a => LCD_PrintSensorData t g a
  | Op.sendNibble nibble mode => LCD_SendNibble nibble mode
  | Op.sendCommand cmd => LCD_SendCommand cmd
  | Op.sendData data => LCD_SendData data

/-- A 16 x 2 display, nothing sent yet, on a transport whose write number `j`
(counted from 0) fails. -/
def flakyWorld (j : Nat) : World :=
  { lcd_conf := { I2C_LCD_nCol := 16, I2C_LCD_nRow := 2 },
    trace := [],
    transmit_ok := fun i => !(i == j) }

/-- The stored geometry after a run, when the run has a final state. -/
def Res.conf? {α : Type} : Res α → Option I2C_LCD_Conf
  | Res.ok _ w => some w.lcd_conf
  | Res.halt w => some w.lcd_conf
  | Res.undef => none

/-- The same state on a transport that accepts every write. -/
def World.heal (w : World) : World := { w with transmit_ok := fun _ => true }

/-- What is left of the events `es` of a run on a good transport when the
transport answers as `tx` and `n` writes were made before: `none` when no
write of `es` fails, else the events up to the first failing write, followed
by the UART message and the fatal handler. -/
def failCut (tx : Nat → Bool) : Nat → List Event → Option (List Event)
  | _, [] => none
  | n, Event.write v :: es =>
    if tx n then (failCut tx (n + 1) es).map (Event.write v :: ·)
    else some [Event.write v, Event.uart "ERROR HANDLER LCD WRITE!\r\n", Event.fatal]
  | n, Event.delay ms :: es => (failCut tx n es).map (Event.delay ms :: ·)
  | n, Event.uart msg :: es => (failCut tx n es).map (Event.uart msg :: ·)
  | n, Event.fatal :: es => (failCut tx n es).map (Event.fatal :: ·)

/-- Number of entries into `Error_Handler` in a trace. -/
def fatalCount : List Event → Nat
  | [] => 0
  | Event.fatal :: es => fatalCount es + 1
  | _ :: es => fatalCount es

/-- The bus writes of the initialisation sequence of `LCD_Init`. -/
def initWrites : List Nat :=
  [0x3C, 0x38, 0x3C, 0x38, 0x3C, 0x38, 0x2C, 0x28,
   0x2C, 0x28, 0x8C, 0x88, 0x0C, 0x08, 0x8C, 0x88, 0x0C, 0x08, 0x1C, 0x18,
   0x0C, 0x08, 0x6C, 0x68, 0x0C, 0x08, 0xCC, 0xC8]

/-- Whether a list of bus writes has `0x38` directly followed by `0x3C`: the
end of one 8-bit function-set nibble and the start of the next. -/
def hasLatchPair : List Nat → Bool
  | a :: b :: rest => (a == 0x38 && b == 0x3C) || hasLatchPair (b :: rest)
  | _ => false

/-- Bus writes without that pair which do not start with `0x3C`. -/
def quietWrites (ws : List Nat) : Bool :=
  !hasLatchPair ws && !(ws.head? == some 0x3C)

/-- Code which, on a transport that accepts every write, only adds quiet bus
writes to the trace when it returns. -/
def Quiet {α : Type} (m : Exec α) : Prop :=
  ∀ w, Healthy w → ∀ a w1, m w = Res.ok a w1 →
    Healthy w1 ∧ ∃ es, w1.trace = w.trace ++ es ∧ quietWrites (busWrites es) = true

/-- The public operations other than `LCD_Begin`. -/
def Op.afterBegin : Op → Bool
  | Op.clear => true
  | Op.home => true
  | Op.setCursor _ _ => true
  | Op.sendString _ => true
  | Op.print _ => true
  | Op.printLine _ _ => true
  | Op.printSensorData _ _ _ => true
  | _ => false

/-- A sequence of calls, one after the other. -/
def runAll : List Op → Exec Unit
  | [] => pure ()
  | op :: ops => do
    op.run
    runAll ops

/-- The command byte which the controller reads from the four bus writes of
one command: the high nibble of the second write, then the high nibble of the
fourth write as low nibble. -/
def commandByteOf (ws : List Nat) : Nat :=
  match ws with
  | [_, hi, _, lo] => (hi &&& 0xF0) ||| ((lo &&& 0xF0) >>> 4)
  | _ => 0

/-- The indices of `buf` which `LCD_PrintLine` writes, in the order of the
writes: `strncpy(buf, text, len)` writes `buf[0]` to `buf[len - 1]`, the loop
writes `buf[len]` to `buf[nCol - 1]`, the last assignment writes `buf[nCol]`;
`len` is `strlen(text)`, replaced by 20 when it exceeds `nCol`. -/
def PrintLine_store_indices (nCol : Nat) (text : List Char) : List Nat :=
  let len := strlen text
  let len := if len > nCol then 20 else len
  List.range len ++ List.range' len (nCol - len) ++ [nCol]

/-- The buffer of `LCD_PrintLine` after its writes, `none` when one of them
is outside the array `char buf[nCol + 1]`. -/
def PrintLine_buffer (nCol : Nat) (text : List Char) : Option Buf :=
  let len := strlen text
  let len := if len > nCol then 20 else len
  (strncpy (Buf.alloc (nCol + 1)) text len).bind fun buf =>
    (fill_spaces buf len (nCol - len)).bind fun buf =>
      buf.store nCol '\x00'

/-- Whether a run has undefined behaviour. -/
def Res.isUndef {α : Type} : Res α → Bool
  | Res.undef => true
  | _ => false

/-! ## Running code on a transport that accepts every write -/

theorem busWrites_append (xs ys : List Event) :
    busWrites (xs ++ ys) = busWrites xs ++ busWrites ys := by
  induction xs with
  | nil => rfl
  | cons e es ih => cases e <;> simp [busWrites, ih]

@[simp] theorem bind_apply {α β : Type} (m : Exec α) (f : α → Exec β) (w : World) :
    (m >>= f) w = (m w).andThen f := rfl

@[simp] theorem pure_apply {α : Type} (a : α) (w : World) :
    (pure a : Exec α) w = Res.ok a w := rfl

@[simp] theorem andThen_ok {α β : Type} (a : α) (w : World) (f : α → World → Res β) :
    (Res.ok a w).andThen f = f a w := rfl

@[simp] theorem andThen_undef {α β : Type} (f : α → World → Res β) :
    (Res.undef : Res α).andThen f = Res.undef := rfl

@[simp] theorem log_log (w : World) (xs ys : List Event) :
    (w.log xs).log ys = w.log (xs ++ ys) := by
  simp [World.log]

@[simp] theorem log_trace (w : World) (xs : List Event) :
    (w.log xs).trace = w.trace ++ xs := rfl

@[simp] theorem log_conf (w : World) (xs : List Event) :
    (w.log xs).lcd_conf = w.lcd_conf := rfl

theorem Healthy.log {w : World} (h : Healthy w) (xs : List Event) : Healthy (w.log xs) :=
  fun k => h k

theorem idleWorld_healthy (cols rows : Nat) : Healthy (idleWorld cols rows) :=
  fun _ => rfl

theorem HAL_Delay_run (ms : Nat) (w : World) :
    HAL_Delay ms w = Res.ok () (w.log [Event.delay ms]) := rfl

theorem WriteRegister_run (valor : Nat) (w : World) (h : Healthy w) :
    LCD_PortI2C_WriteRegister valor w = Res.ok () (w.log [Event.write valor]) := by
  simp [LCD_PortI2C_WriteRegister, HAL_I2C_Master_Transmit, h (busWrites w.trace).length]

theorem SendNibble_run (nibble mode : Nat) (w : World) (h : Healthy w) :
    LCD_SendNibble nibble mode w = Res.ok () (w.log (nibbleEvents nibble mode)) := by
  simp [LCD_SendNibble, WriteRegister_run, HAL_Delay_run, h, Healthy.log, nibbleEvents]

theorem SendCommand_run (cmd : Nat) (w : World) (h : Healthy w) :
    LCD_SendCommand cmd w = Res.ok () (w.log (commandEvents cmd)) := by
  simp [LCD_SendCommand, SendNibble_run, HAL_Delay_run, h, Healthy.log, commandEvents]

theorem SendData_run (data : Nat) (w : World) (h : Healthy w) :
    LCD_SendData data w = Res.ok () (w.log (dataEvents data)) := by
  simp [LCD_SendData, SendNibble_run, HAL_Delay_run, h, Healthy.log, dataEvents]

theorem Init_run (w : World) (h : Healthy w) :
    LCD_Init w = Res.ok () (w.log initEvents) := by
  simp [LCD_Init, SendNibble_run, SendCommand_run, HAL_Delay_run, h, Healthy.log, initEvents]
  rfl

theorem Begin_run (cols rows : Nat) (w : World) (h : Healthy w) :
    LCD_Begin cols rows w =
      Res.ok () (World.log { w with lcd_conf := ⟨cols, rows⟩ } initEvents) := by
  simp only [LCD_Begin, getConf, setConf, bind_apply, andThen_ok]
  exact Init_run _ h

set_option maxRecDepth 100000 in
theorem nibble_bytes : ∀ n < 256, ∀ m < 2,
    busWrites (nibbleEvents n m) = nibbleWrites n m := by
  decide

set_option maxRecDepth 100000 in
theorem command_bytes : ∀ b < 256,
    busWrites (commandEvents b) = commandWrites b
      ∧ busWrites (dataEvents b) = dataWrites b
      ∧ (∀ x ∈ commandWrites b, x &&& 0x01 = 0)
      ∧ (∀ x ∈ dataWrites b, x &&& 0x01 = 1) := by
  decide

/-! ## The nibble protocol -/

/-- C1: for every 8-bit value `n` and mode bit `m` (0x00 command, 0x01 data),
on a transport that accepts every write, `LCD_SendNibble n m` returns after
exactly two bus writes: first the byte
`(n & 0xF0) | 0x08 | m` with the enable bit 0x04 set, then the same byte with
the enable bit cleared. -/
theorem SendNibble_two_writes (n m : Nat) (w : World)
    (hn : n < 256) (hm : m = 0x00 ∨ m = 0x01) (hw : Healthy w) :
    ∃ w1, LCD_SendNibble n m w = Res.ok () w1 ∧
      busWrites w1.trace = busWrites w.trace ++
        [((n &&& 0xF0) ||| 0x08 ||| m) ||| 0x04, ((n &&& 0xF0) ||| 0x08 ||| m) &&& 0xFB] := by
  refine ⟨_, SendNibble_run n m w hw, ?_⟩
  have hm2 : m < 2 := by rcases hm with h | h <;> omega
  rw [log_trace, busWrites_append, nibble_bytes n hn m hm2]
  rfl

theorem SendNibble_two_writes_witness :
    (0x35 < 256 ∧ Healthy (idleWorld 16 2)) ∧
    ∃ w1, LCD_SendNibble 0x35 0x01 (idleWorld 16 2) = Res.ok () w1 ∧
      busWrites w1.trace = busWrites (idleWorld 16 2).trace ++
        [((0x35 &&& 0xF0) ||| 0x08 ||| 0x01) ||| 0x04,
         ((0x35 &&& 0xF0) ||| 0x08 ||| 0x01) &&& 0xFB] :=
  ⟨⟨by decide, idleWorld_healthy 16 2⟩,
   SendNibble_two_writes 0x35 0x01 (idleWorld 16 2) (by decide) (Or.inr rfl)
     (idleWorld_healthy 16 2)⟩

/-- C2: for every byte `b`, on a transport that accepts every write,
`LCD_SendCommand b` and `LCD_SendData b` each return after exactly four bus
writes: the two writes of the nibble transfer of
the high nibble `b & 0xF0`, then the two of the low nibble shifted up,
`(b << 4) & 0xF0`; every byte written by `LCD_SendCommand` has the mode bit
0x01 clear, every byte written by `LCD_SendData` has it set. -/
theorem SendCommand_SendData_four_writes (b : Nat) (w : World)
    (hb : b < 256) (hw : Healthy w) :
    (∃ w1 ws, LCD_SendCommand b w = Res.ok () w1 ∧
      busWrites w1.trace = busWrites w.trace ++ ws ∧
      ws = nibbleWrites (b &&& 0xF0) 0x00 ++ nibbleWrites ((b <<< 4) &&& 0xF0) 0x00 ∧
      ws.length = 4 ∧ ∀ x ∈ ws, x &&& 0x01 = 0) ∧
    (∃ w1 ws, LCD_SendData b w = Res.ok () w1 ∧
      busWrites w1.trace = busWrites w.trace ++ ws ∧
      ws = nibbleWrites (b &&& 0xF0) 0x01 ++ nibbleWrites ((b <<< 4) &&& 0xF0) 0x01 ∧
      ws.length = 4 ∧ ∀ x ∈ ws, x &&& 0x01 = 1) := by
  obtain ⟨hc, hd, hc0, hd1⟩ := command_bytes b hb
  constructor
  · refine ⟨_, commandWrites b, SendCommand_run b w hw, ?_, rfl, rfl, hc0⟩
    rw [log_trace, busWrites_append, hc]
  · refine ⟨_, dataWrites b, SendData_run b w hw, ?_, rfl, rfl, hd1⟩
    rw [log_trace, busWrites_append, hd]

theorem SendCommand_SendData_four_writes_witness :
    (0x41 < 256 ∧ Healthy (idleWorld 16 2)) ∧
    ((∃ w1 ws, LCD_SendCommand 0x41 (idleWorld 16 2) = Res.ok () w1 ∧
      busWrites w1.trace = busWrites (idleWorld 16 2).trace ++ ws ∧
      ws = nibbleWrites (0x41 &&& 0xF0) 0x00 ++ nibbleWrites ((0x41 <<< 4) &&& 0xF0) 0x00 ∧
      ws.length = 4 ∧ ∀ x ∈ ws, x &&& 0x01 = 0) ∧
    (∃ w1 ws, LCD_SendData 0x41 (idleWorld 16 2) = Res.ok () w1 ∧
      busWrites w1.trace = busWrites (idleWorld 16 2).trace ++ ws ∧
      ws = nibbleWrites (0x41 &&& 0xF0) 0x01 ++ nibbleWrites ((0x41 <<< 4) &&& 0xF0) 0x01 ∧
      ws.length = 4 ∧ ∀ x ∈ ws, x &&& 0x01 = 1)) :=
  ⟨⟨by decide, idleWorld_healthy 16 2⟩,
   SendCommand_SendData_four_writes 0x41 (idleWorld 16 2) (by decide) (idleWorld_healthy 16 2)⟩

/-! ## Initialisation -/

/-- C3: for every `(cols, rows)`, on a transport that accepts every write,
`LCD_Begin cols rows` returns after exactly this sequence of transmissions, whatever the geometry: the single nibble 0x30
three times, the single nibble 0x20, then the commands 0x28, 0x08, 0x01, 0x06,
0x0C, all in command mode; these are 4*2 + 5*4 = 28 bus writes and there is no
other. -/
theorem Begin_sequence (cols rows : Nat) (w : World) (hw : Healthy w) :
    ∃ w1 ws, LCD_Begin cols rows w = Res.ok () w1 ∧
      busWrites w1.trace = busWrites w.trace ++ ws ∧
      ws = nibbleWrites 0x30 0x00 ++ nibbleWrites 0x30 0x00 ++ nibbleWrites 0x30 0x00
            ++ nibbleWrites 0x20 0x00
            ++ commandWrites 0x28 ++ commandWrites 0x08 ++ commandWrites 0x01
            ++ commandWrites 0x06 ++ commandWrites 0x0C ∧
      ws = [0x3C, 0x38, 0x3C, 0x38, 0x3C, 0x38, 0x2C, 0x28,
            0x2C, 0x28, 0x8C, 0x88, 0x0C, 0x08, 0x8C, 0x88, 0x0C, 0x08, 0x1C, 0x18,
            0x0C, 0x08, 0x6C, 0x68, 0x0C, 0x08, 0xCC, 0xC8] ∧
      ws.length = 4 * 2 + 5 * 4 ∧ ∀ x ∈ ws, x &&& 0x01 = 0 := by
  refine ⟨_, busWrites initEvents, Begin_run cols rows w hw, ?_,
    by decide, by decide, by decide, by decide⟩
  rw [log_trace, busWrites_append]

theorem Begin_sequence_witness :
    Healthy (idleWorld 0 0) ∧
    ∃ w1 ws, LCD_Begin 20 4 (idleWorld 0 0) = Res.ok () w1 ∧
      busWrites w1.trace = busWrites (idleWorld 0 0).trace ++ ws ∧
      ws = nibbleWrites 0x30 0x00 ++ nibbleWrites 0x30 0x00 ++ nibbleWrites 0x30 0x00
            ++ nibbleWrites 0x20 0x00
            ++ commandWrites 0x28 ++ commandWrites 0x08 ++ commandWrites 0x01
            ++ commandWrites 0x06 ++ commandWrites 0x0C ∧
      ws = [0x3C, 0x38, 0x3C, 0x38, 0x3C, 0x38, 0x2C, 0x28,
            0x2C, 0x28, 0x8C, 0x88, 0x0C, 0x08, 0x8C, 0x88, 0x0C, 0x08, 0x1C, 0x18,
            0x0C, 0x08, 0x6C, 0x68, 0x0C, 0x08, 0xCC, 0xC8] ∧
      ws.length = 4 * 2 + 5 * 4 ∧ ∀ x ∈ ws, x &&& 0x01 = 0 :=
  ⟨idleWorld_healthy 0 0, Begin_sequence 20 4 (idleWorld 0 0) (idleWorld_healthy 0 0)⟩

theorem and_F0_mod (x : Nat) : (x % 256) &&& 0xF0 = x &&& 0xF0 := by
  have h : x % 256 = x &&& 255 := (Nat.and_pow_two_sub_one_eq_mod x 8).symm
  rw [h, Nat.and_assoc]
  rfl

theorem shl_and_F0_mod (x : Nat) : ((x % 256) <<< 4) &&& 0xF0 = (x <<< 4) &&& 0xF0 := by
  have h1 : (x % 256) <<< 4 = (x <<< 4) % 4096 := by
    simp only [Nat.shiftLeft_eq]
    omega
  have h2 : (x <<< 4) % 4096 = (x <<< 4) &&& 4095 := (Nat.and_pow_two_sub_one_eq_mod _ 12).symm
  rw [h1, h2, Nat.and_assoc]
  rfl

theorem byteWrites_u8 (x m : Nat) : byteWrites (u8 x) m = byteWrites x m := by
  simp only [byteWrites, u8, and_F0_mod, shl_and_F0_mod]

theorem busWrites_commandEvents_u8 (x : Nat) :
    busWrites (commandEvents (u8 x)) = commandWrites x := by
  rw [(command_bytes (u8 x) (Nat.mod_lt _ (by decide))).1, commandWrites, byteWrites_u8]
  rfl

theorem SetCursor_run (col row : Nat) (w : World) (h : Healthy w)
    (hr1 : 1 ≤ w.lcd_conf.I2C_LCD_nRow) (hr4 : w.lcd_conf.I2C_LCD_nRow ≤ 4)
    (hc1 : 1 ≤ w.lcd_conf.I2C_LCD_nCol) (hc : w.lcd_conf.I2C_LCD_nCol < 256) :
    ∃ off, [0x00, 0x40, 0x14, 0x54][min row (w.lcd_conf.I2C_LCD_nRow - 1)]? = some off ∧
      LCD_SetCursor col row w = Res.ok () (w.log (commandEvents
        (u8 (0x80 ||| (min col (w.lcd_conf.I2C_LCD_nCol - 1) + off))))) := by
  have hrow : (if row ≥ w.lcd_conf.I2C_LCD_nRow then u8_pred w.lcd_conf.I2C_LCD_nRow else row)
      = min row (w.lcd_conf.I2C_LCD_nRow - 1) := by
    unfold u8_pred; split <;> omega
  have hcol : (if col ≥ w.lcd_conf.I2C_LCD_nCol then u8_pred w.lcd_conf.I2C_LCD_nCol else col)
      = min col (w.lcd_conf.I2C_LCD_nCol - 1) := by
    unfold u8_pred; split <;> omega
  have hlt : min row (w.lcd_conf.I2C_LCD_nRow - 1) < 4 := by omega
  simp only [LCD_SetCursor, getConf, bind_apply, andThen_ok, hrow, hcol]
  generalize min row (w.lcd_conf.I2C_LCD_nRow - 1) = r at hlt ⊢
  interval_cases r <;> exact ⟨_, rfl, SendCommand_run _ w h⟩

theorem SetCursor_run_row (col row : Nat) (w : World) (h : Healthy w)
    (hr1 : 1 ≤ w.lcd_conf.I2C_LCD_nRow) (hr : w.lcd_conf.I2C_LCD_nRow < 256)
    (hidx : min row (w.lcd_conf.I2C_LCD_nRow - 1) < 4)
    (hc1 : 1 ≤ w.lcd_conf.I2C_LCD_nCol) (hc : w.lcd_conf.I2C_LCD_nCol < 256) :
    ∃ off, [0x00, 0x40, 0x14, 0x54][min row (w.lcd_conf.I2C_LCD_nRow - 1)]? = some off ∧
      LCD_SetCursor col row w = Res.ok () (w.log (commandEvents
        (u8 (0x80 ||| (min col (w.lcd_conf.I2C_LCD_nCol - 1) + off))))) := by
  have hrow : (if row ≥ w.lcd_conf.I2C_LCD_nRow then u8_pred w.lcd_conf.I2C_LCD_nRow else row)
      = min row (w.lcd_conf.I2C_LCD_nRow - 1) := by
    unfold u8_pred; split <;> omega
  have hcol : (if col ≥ w.lcd_conf.I2C_LCD_nCol then u8_pred w.lcd_conf.I2C_LCD_nCol else col)
      = min col (w.lcd_conf.I2C_LCD_nCol - 1) := by
    unfold u8_pred; split <;> omega
  simp only [LCD_SetCursor, getConf, bind_apply, andThen_ok, hrow, hcol]
  generalize min row (w.lcd_conf.I2C_LCD_nRow - 1) = r at hidx ⊢
  interval_cases r <;> exact ⟨_, rfl, SendCommand_run _ w h⟩

/-! ## Cursor positioning -/

/-- C4: on a configured geometry with at least one column and one to four
rows, and a transport that accepts every write, `LCD_SetCursor col row`
returns after sending exactly one command, the one of byte
`0x80 | (rowOffset[r] + c)` with `r = min(row, rows-1)`,
`c = min(col, columns-1)` (saturation) and
`rowOffset = [0x00, 0x40, 0x14, 0x54]`: its bus writes are the four writes
which the wire encoding gives for that value. -/
theorem SetCursor_command (col row : Nat) (w : World) (hw : Healthy w)
    (hc1 : 1 ≤ w.lcd_conf.I2C_LCD_nCol) (hc : w.lcd_conf.I2C_LCD_nCol < 256)
    (hr1 : 1 ≤ w.lcd_conf.I2C_LCD_nRow) (hr4 : w.lcd_conf.I2C_LCD_nRow ≤ 4) :
    ∃ w1 off,
      [0x00, 0x40, 0x14, 0x54][min row (w.lcd_conf.I2C_LCD_nRow - 1)]? = some off ∧
      LCD_SetCursor col row w = Res.ok () w1 ∧
      busWrites w1.trace = busWrites w.trace ++
        commandWrites (0x80 ||| (off + min col (w.lcd_conf.I2C_LCD_nCol - 1))) := by
  obtain ⟨off, hoff, hrun⟩ := SetCursor_run col row w hw hr1 hr4 hc1 hc
  refine ⟨_, off, hoff, hrun, ?_⟩
  rw [log_trace, busWrites_append, busWrites_commandEvents_u8, Nat.add_comm off]

theorem SetCursor_command_witness :
    (Healthy (idleWorld 20 4) ∧ 1 ≤ (idleWorld 20 4).lcd_conf.I2C_LCD_nCol ∧
      (idleWorld 20 4).lcd_conf.I2C_LCD_nCol < 256 ∧
      1 ≤ (idleWorld 20 4).lcd_conf.I2C_LCD_nRow ∧
      (idleWorld 20 4).lcd_conf.I2C_LCD_nRow ≤ 4) ∧
    ∃ w1 off,
      [0x00, 0x40, 0x14, 0x54][min 7 ((idleWorld 20 4).lcd_conf.I2C_LCD_nRow - 1)]? = some off ∧
      LCD_SetCursor 25 7 (idleWorld 20 4) = Res.ok () w1 ∧
      busWrites w1.trace = busWrites (idleWorld 20 4).trace ++
        commandWrites (0x80 ||| (off + min 25 ((idleWorld 20 4).lcd_conf.I2C_LCD_nCol - 1))) :=
  ⟨⟨idleWorld_healthy 20 4, by decide, by decide, by decide, by decide⟩,
   SetCursor_command 25 7 (idleWorld 20 4) (idleWorld_healthy 20 4)
     (by decide) (by decide) (by decide) (by decide)⟩

/-- C5: on a configured geometry with 1 to 20 columns and 1 to 4 rows, and a
transport that accepts every write, `LCD_SetCursor columns rows` has exactly the outcome of
`LCD_SetCursor (columns-1) (rows-1)`, hence the same bus writes, and both
return normally (no error is raised). -/
theorem SetCursor_corner (w : World) (hw : Healthy w)
    (hc1 : 1 ≤ w.lcd_conf.I2C_LCD_nCol) (hc20 : w.lcd_conf.I2C_LCD_nCol ≤ 20)
    (hr1 : 1 ≤ w.lcd_conf.I2C_LCD_nRow) (hr4 : w.lcd_conf.I2C_LCD_nRow ≤ 4) :
    ∃ w1,
      LCD_SetCursor w.lcd_conf.I2C_LCD_nCol w.lcd_conf.I2C_LCD_nRow w = Res.ok () w1 ∧
      LCD_SetCursor (w.lcd_conf.I2C_LCD_nCol - 1) (w.lcd_conf.I2C_LCD_nRow - 1) w
        = Res.ok () w1 := by
  have hc : w.lcd_conf.I2C_LCD_nCol < 256 := by omega
  obtain ⟨o1, h1, e1⟩ :=
    SetCursor_run w.lcd_conf.I2C_LCD_nCol w.lcd_conf.I2C_LCD_nRow w hw hr1 hr4 hc1 hc
  obtain ⟨o2, h2, e2⟩ :=
    SetCursor_run (w.lcd_conf.I2C_LCD_nCol - 1) (w.lcd_conf.I2C_LCD_nRow - 1) w hw hr1 hr4 hc1 hc
  have m1 : min w.lcd_conf.I2C_LCD_nRow (w.lcd_conf.I2C_LCD_nRow - 1)
      = w.lcd_conf.I2C_LCD_nRow - 1 := by omega
  have m2 : min w.lcd_conf.I2C_LCD_nCol (w.lcd_conf.I2C_LCD_nCol - 1)
      = w.lcd_conf.I2C_LCD_nCol - 1 := by omega
  rw [m1] at h1
  rw [m2] at e1
  rw [Nat.min_self] at h2 e2
  have ho : o1 = o2 := Option.some.inj (h1.symm.trans h2)
  subst ho
  exact ⟨_, e1, e2⟩

theorem SetCursor_corner_witness :
    (Healthy (idleWorld 16 2) ∧ 1 ≤ (idleWorld 16 2).lcd_conf.I2C_LCD_nCol ∧
      (idleWorld 16 2).lcd_conf.I2C_LCD_nCol ≤ 20 ∧
      1 ≤ (idleWorld 16 2).lcd_conf.I2C_LCD_nRow ∧
      (idleWorld 16 2).lcd_conf.I2C_LCD_nRow ≤ 4) ∧
    ∃ w1,
      LCD_SetCursor (idleWorld 16 2).lcd_conf.I2C_LCD_nCol
        (idleWorld 16 2).lcd_conf.I2C_LCD_nRow (idleWorld 16 2) = Res.ok () w1 ∧
      LCD_SetCursor ((idleWorld 16 2).lcd_conf.I2C_LCD_nCol - 1)
        ((idleWorld 16 2).lcd_conf.I2C_LCD_nRow - 1) (idleWorld 16 2) = Res.ok () w1 :=
  ⟨⟨idleWorld_healthy 16 2, by decide, by decide, by decide, by decide⟩,
   SetCursor_corner (idleWorld 16 2) (idleWorld_healthy 16 2)
     (by decide) (by decide) (by decide) (by decide)⟩

set_option maxRecDepth 100000 in
theorem printf_02d_two_digits : ∀ d : Nat, d < 100 →
    printf_02d (d : Int) = [Nat.digitChar (d / 10), Nat.digitChar (d % 10)] := by
  decide
theorem printf_d_digit : ∀ d : Nat, d < 10 → printf_d (d : Int) = [Nat.digitChar d] := by
  decide
theorem printf_d_ofNat (n : Nat) : printf_d (n : Int) = Nat.toDigits 10 n := by
  simp [printf_d]

theorem FormatIntDecimal_ofNat (v decimals : Nat) :
    FormatIntDecimal (v : Int) decimals = some (digitsText v decimals) := by
  have h : ¬ ((v : Int) < 0) := by omega
  have e1 : Int.tdiv (v : Int) 100 = ((v / 100 : Nat) : Int) := rfl
  have e2 : Int.tmod (v : Int) 100 = ((v % 100 : Nat) : Int) := rfl
  have e3 : Int.tdiv ((v % 100 : Nat) : Int) 10 = ((v % 100 / 10 : Nat) : Int) := rfl
  simp only [FormatIntDecimal, h, if_false, Option.bind_eq_bind, Option.some_bind, e1, e2, e3,
    printf_d_ofNat, digitsText]
  split <;> rfl

theorem neg32_neg_ofNat (n : Nat) (h : n < 2147483648) :
    neg32 (-(n : Int)) = some (n : Int) := by
  unfold neg32
  rw [if_pos (by simp only [INT32_MAX]; omega), Int.neg_neg]

/-- Negative values above `INT32_MIN`: a single `-`, then the rendering of the
absolute value. -/
theorem FormatIntDecimal_neg (n decimals : Nat) (h0 : 0 < n) (h : n < 2147483648) :
    FormatIntDecimal (-(n : Int)) decimals = some ('-' :: digitsText n decimals) := by
  have hneg : (-(n : Int)) < 0 := by omega
  have e1 : Int.tdiv (n : Int) 100 = ((n / 100 : Nat) : Int) := rfl
  have e2 : Int.tmod (n : Int) 100 = ((n % 100 : Nat) : Int) := rfl
  have e3 : Int.tdiv ((n % 100 : Nat) : Int) 10 = ((n % 100 / 10 : Nat) : Int) := rfl
  simp only [FormatIntDecimal, hneg, if_true, neg32_neg_ofNat n h, Option.bind_eq_bind,
    Option.some_bind, e1, e2, e3, printf_d_ofNat, digitsText]
  split <;> rfl

theorem valueText_ofNat (v decimals : Nat) :
    valueText (v : Int) decimals = digitsText v decimals := by
  rw [valueText, FormatIntDecimal_ofNat, Option.getD_some]

theorem valueText_neg (n decimals : Nat) (h0 : 0 < n) (h : n < 2147483648) :
    valueText (-(n : Int)) decimals = '-' :: digitsText n decimals := by
  rw [valueText, FormatIntDecimal_neg n decimals h0 h, Option.getD_some]

/-- C6: for every non-negative `v`, `FormatIntDecimal v 2` is the decimal
rendering of `v / 100`, then `.`, then `v % 100` on exactly two digits (tens,
then units, zero-padded); `FormatIntDecimal 1234 2` is "12.34" and
`FormatIntDecimal 0 2` is "0.00". -/
theorem FormatIntDecimal_two_decimals (v : Nat) :
    FormatIntDecimal (v : Int) 2 =
        some (Nat.toDigits 10 (v / 100) ++ ['.']
          ++ [Nat.digitChar (v % 100 / 10), Nat.digitChar (v % 100 % 10)]) ∧
      FormatIntDecimal 1234 2 = some "12.34".toList ∧
      FormatIntDecimal 0 2 = some "0.00".toList := by
  refine ⟨?_, by decide, by decide⟩
  rw [FormatIntDecimal_ofNat, digitsText, if_pos rfl,
    printf_02d_two_digits _ (Nat.mod_lt _ (by decide))]

/-- C7: for every non-negative `v`, `FormatIntDecimal v 1` is the decimal
rendering of `v / 100`, then `.`, then the single digit `(v % 100) / 10`: the
last decimal digit is dropped, not rounded; `FormatIntDecimal 567 1` is "5.6",
and two values with the same `v / 10` give the same text. -/
theorem FormatIntDecimal_one_decimal (v : Nat) :
    FormatIntDecimal (v : Int) 1 =
        some (Nat.toDigits 10 (v / 100) ++ ['.'] ++ [Nat.digitChar (v % 100 / 10)]) ∧
      FormatIntDecimal 567 1 = some "5.6".toList ∧
      ∀ v1 : Nat, v / 10 = v1 / 10 →
        FormatIntDecimal (v : Int) 1 = FormatIntDecimal (v1 : Int) 1 := by
  have key : ∀ u : Nat, FormatIntDecimal (u : Int) 1 =
      some (Nat.toDigits 10 (u / 10 / 10) ++ ['.'] ++ [Nat.digitChar (u / 10 % 10)]) := by
    intro u
    have h1 : u / 100 = u / 10 / 10 := by omega
    have h2 : u % 100 / 10 = u / 10 % 10 := by omega
    rw [FormatIntDecimal_ofNat, digitsText, if_neg (by decide), printf_d_digit _ (by omega),
      h1, h2]
  refine ⟨?_, by decide, ?_⟩
  · rw [FormatIntDecimal_ofNat, digitsText, if_neg (by decide), printf_d_digit _ (by omega)]
  · intro v1 h
    rw [key v, key v1, h]

theorem FormatIntDecimal_one_decimal_witness :
    567 / 10 = 569 / 10 ∧
      FormatIntDecimal ((567 : Nat) : Int) 1 = FormatIntDecimal ((569 : Nat) : Int) 1 :=
  ⟨by decide, (FormatIntDecimal_one_decimal 567).2.2 569 (by decide)⟩

theorem NulFree.tail {c : Char} {s : List Char} (h : NulFree (c :: s)) : NulFree s :=
  fun d hd => h d (List.mem_cons_of_mem c hd)

theorem NulFree.head {c : Char} {s : List Char} (h : NulFree (c :: s)) : c ≠ '\x00' :=
  h c (List.mem_cons_self c s)

theorem strlen_nulFree (s : List Char) (h : NulFree s) : strlen s = s.length := by
  induction s with
  | nil => rfl
  | cons c s ih => simp [strlen, h.head, ih h.tail]

theorem store_at (pre : Buf) (x : Option Char) (rest : Buf) (c : Char) :
    Buf.store (pre ++ x :: rest) pre.length c = some (pre ++ some c :: rest) := by
  simp [Buf.store]

theorem strncpy_from_take (src : List Char) : ∀ (n : Nat) (pre rest : Buf),
    NulFree src → n ≤ src.length → n ≤ rest.length →
    strncpy_from (pre ++ rest) pre.length src n
      = some (pre ++ (src.take n).map some ++ rest.drop n) := by
  induction src with
  | nil =>
    intro n pre rest _ hn _
    have h0 : n = 0 := by simpa using hn
    subst h0
    simp [strncpy_from]
  | cons c s ih =>
    intro n pre rest hs hn hr
    cases n with
    | zero => simp [strncpy_from]
    | succ k =>
      cases rest with
      | nil => simp at hr
      | cons x rest1 =>
        have hk : k ≤ s.length := by simpa using hn
        have hr1 : k ≤ rest1.length := by simpa using hr
        have step := ih k (pre ++ [some c]) rest1 hs.tail hk hr1
        simp only [List.length_append, List.length_singleton, List.append_assoc,
          List.singleton_append] at step
        simp [strncpy_from, hs.head, store_at, step]

theorem fill_spaces_eq : ∀ (k : Nat) (pre rest : Buf), k ≤ rest.length →
    fill_spaces (pre ++ rest) pre.length k
      = some (pre ++ List.replicate k (some ' ') ++ rest.drop k) := by
  intro k
  induction k with
  | zero => intro pre rest _; simp [fill_spaces]
  | succ k ih =>
    intro pre rest hr
    cases rest with
    | nil => simp at hr
    | cons x rest1 =>
      have hr1 : k ≤ rest1.length := by simpa using hr
      have step := ih (pre ++ [some ' ']) rest1 hr1
      simp only [List.length_append, List.length_singleton, List.append_assoc,
        List.singleton_append] at step
      simp [fill_spaces, store_at, step, List.replicate_succ]

theorem cstr_of_text (s : List Char) (rest : Buf) (h : NulFree s) :
    Buf.cstr (s.map some ++ some '\x00' :: rest) = some s := by
  induction s with
  | nil => simp [Buf.cstr]
  | cons c s ih => simp [Buf.cstr, h.head, ih h.tail]

theorem SendString_run (s : List Char) (hs : NulFree s) : ∀ (w : World), Healthy w →
    LCD_SendString s w = Res.ok () (w.log (stringEvents s)) := by
  induction s with
  | nil => intro w _; rfl
  | cons c s ih =>
    intro w h
    simp [LCD_SendString, hs.head, SendData_run, h, ih hs.tail, Healthy.log, stringEvents]

theorem busWrites_stringEvents (s : List Char) :
    busWrites (stringEvents s) = textWrites s := by
  induction s with
  | nil => rfl
  | cons c s ih =>
    have hb : busWrites (dataEvents (u8 c.toNat)) = dataWrites c.toNat := by
      rw [(command_bytes (u8 c.toNat) (Nat.mod_lt _ (by decide))).2.1, dataWrites, byteWrites_u8]
      rfl
    rw [stringEvents, busWrites_append, ih, hb, textWrites]

@[simp] theorem orUndef_some {α : Type} (a : α) (w : World) :
    orUndef (some a) w = Res.ok a w := rfl

theorem line_strncpy (text : List Char) (nCol : Nat) (h : NulFree text)
    (hl : text.length ≤ nCol) :
    strncpy (Buf.alloc (nCol + 1)) text text.length
      = some (text.map some ++ List.replicate (nCol + 1 - text.length) none) := by
  have := strncpy_from_take text text.length [] (List.replicate (nCol + 1) none) h
    (Nat.le_refl _) (by simp; omega)
  simpa [strncpy, Buf.alloc] using this

theorem line_fill (text : List Char) (nCol : Nat) (hl : text.length ≤ nCol) :
    fill_spaces (text.map some ++ List.replicate (nCol + 1 - text.length) none)
        text.length (nCol - text.length)
      = some (text.map some ++ List.replicate (nCol - text.length) (some ' ') ++ [none]) := by
  have := fill_spaces_eq (nCol - text.length) (text.map some)
    (List.replicate (nCol + 1 - text.length) none) (by simp; omega)
  have h1 : nCol + 1 - text.length - (nCol - text.length) = 1 := by omega
  simpa [h1] using this

theorem line_terminate (text : List Char) (nCol : Nat) (hl : text.length ≤ nCol) :
    Buf.store (text.map some ++ List.replicate (nCol - text.length) (some ' ') ++ [none])
        nCol '\x00'
      = some ((text ++ List.replicate (nCol - text.length) ' ').map some ++ [some '\x00']) := by
  have := store_at (text.map some ++ List.replicate (nCol - text.length) (some ' '))
    none [] '\x00'
  have h1 : text.length + (nCol - text.length) = nCol := by omega
  simpa [h1] using this

theorem PrintLine_run (row : Nat) (text : List Char) (w : World) (h : Healthy w)
    (hr1 : 1 ≤ w.lcd_conf.I2C_LCD_nRow) (hr4 : w.lcd_conf.I2C_LCD_nRow ≤ 4)
    (hc1 : 1 ≤ w.lcd_conf.I2C_LCD_nCol) (hc : w.lcd_conf.I2C_LCD_nCol < 256)
    (ht : NulFree text) (hl : text.length ≤ w.lcd_conf.I2C_LCD_nCol) :
    ∃ off, [0x00, 0x40, 0x14, 0x54][min row (w.lcd_conf.I2C_LCD_nRow - 1)]? = some off ∧
      LCD_PrintLine row text w = Res.ok () (w.log (commandEvents (u8 (0x80 ||| off))
        ++ stringEvents (text ++ List.replicate (w.lcd_conf.I2C_LCD_nCol - text.length) ' '))) := by
  obtain ⟨off, hoff, hrun⟩ := SetCursor_run 0 row w h hr1 hr4 hc1 hc
  refine ⟨off, hoff, ?_⟩
  have hpad : NulFree (text ++ List.replicate (w.lcd_conf.I2C_LCD_nCol - text.length) ' ') := by
    intro c hc
    rcases List.mem_append.mp hc with h1 | h1
    · exact ht c h1
    · rw [(List.mem_replicate.mp h1).2]; decide
  have hlen : ¬ (text.length > w.lcd_conf.I2C_LCD_nCol) := by omega
  have hmin : min 0 (w.lcd_conf.I2C_LCD_nCol - 1) = 0 := by omega
  rw [hmin, Nat.zero_add] at hrun
  simp only [LCD_PrintLine, getConf, bind_apply, andThen_ok, strlen_nulFree text ht, hlen,
    if_false, line_strncpy text _ ht hl, line_fill text _ hl, line_terminate text _ hl,
    orUndef_some, hrun, cstr_of_text _ [] hpad, SendString_run _ hpad _ (h.log _), log_log]

theorem PrintLine_short (row : Nat) (text : List Char) (w : World)
    (ht : NulFree text) (hl : text.length ≤ w.lcd_conf.I2C_LCD_nCol) :
    LCD_PrintLine row text w =
      (do LCD_SetCursor 0 row
          LCD_SendString (text ++ List.replicate (w.lcd_conf.I2C_LCD_nCol - text.length) ' ')) w := by
  have hpad : NulFree (text ++ List.replicate (w.lcd_conf.I2C_LCD_nCol - text.length) ' ') := by
    intro c hc
    rcases List.mem_append.mp hc with h1 | h1
    · exact ht c h1
    · rw [(List.mem_replicate.mp h1).2]; decide
  have hlen : ¬ (text.length > w.lcd_conf.I2C_LCD_nCol) := by omega
  simp only [LCD_PrintLine, getConf, bind_apply, andThen_ok, strlen_nulFree text ht, hlen,
    if_false, line_strncpy text _ ht hl, line_fill text _ hl, line_terminate text _ hl,
    orUndef_some, cstr_of_text _ [] hpad]
  rfl

theorem PrintLine_run_row (row : Nat) (text : List Char) (w : World) (h : Healthy w)
    (hr1 : 1 ≤ w.lcd_conf.I2C_LCD_nRow) (hr : w.lcd_conf.I2C_LCD_nRow < 256)
    (hidx : min row (w.lcd_conf.I2C_LCD_nRow - 1) < 4)
    (hc1 : 1 ≤ w.lcd_conf.I2C_LCD_nCol) (hc : w.lcd_conf.I2C_LCD_nCol < 256)
    (ht : NulFree text) (hl : text.length ≤ w.lcd_conf.I2C_LCD_nCol) :
    ∃ off, [0x00, 0x40, 0x14, 0x54][min row (w.lcd_conf.I2C_LCD_nRow - 1)]? = some off ∧
      LCD_PrintLine row text w = Res.ok () (w.log (commandEvents (u8 (0x80 ||| off))
        ++ stringEvents (text ++ List.replicate (w.lcd_conf.I2C_LCD_nCol - text.length) ' '))) := by
  obtain ⟨off, hoff, hrun⟩ := SetCursor_run_row 0 row w h hr1 hr hidx hc1 hc
  refine ⟨off, hoff, ?_⟩
  have hpad : NulFree (text ++ List.replicate (w.lcd_conf.I2C_LCD_nCol - text.length) ' ') := by
    intro c hc
    rcases List.mem_append.mp hc with h1 | h1
    · exact ht c h1
    · rw [(List.mem_replicate.mp h1).2]; decide
  have hmin : min 0 (w.lcd_conf.I2C_LCD_nCol - 1) = 0 := by omega
  rw [hmin, Nat.zero_add] at hrun
  rw [PrintLine_short row text w ht hl]
  simp only [bind_apply, hrun, andThen_ok, SendString_run _ hpad _ (h.log _), log_log]

theorem store_length (buf : Buf) (i : Nat) (c : Char) (b : Buf)
    (h : Buf.store buf i c = some b) : b.length = buf.length := by
  unfold Buf.store at h
  split at h
  · rw [← Option.some.inj h]; simp
  · exact absurd h (by simp)

theorem strncpy_from_overflow : ∀ (n : Nat) (dest : Buf) (i : Nat) (src : List Char),
    0 < n → dest.length < i + n → strncpy_from dest i src n = none := by
  intro n
  induction n with
  | zero => intro _ _ _ h; exact absurd h (by decide)
  | succ k ih =>
    intro dest i src _ hlen
    have step : ∀ (c : Char) (s : List Char),
        ((dest.store i c).bind fun d => strncpy_from d (i + 1) s k) = none := by
      intro c s
      cases hst : dest.store i c with
      | none => rfl
      | some d =>
        have hd := store_length dest i c d hst
        have hi : i < dest.length := by
          unfold Buf.store at hst
          by_contra hcon
          simp [hcon] at hst
        have hk : 0 < k := by omega
        simpa using ih d (i + 1) s hk (by omega)
    cases src with
    | nil => simpa [strncpy_from] using step '\x00' []
    | cons c s =>
      by_cases hc : c = '\x00'
      · simpa [strncpy_from, hc] using step '\x00' []
      · simpa [strncpy_from, hc] using step c s

theorem NulFree.take {s : List Char} (h : NulFree s) (n : Nat) : NulFree (s.take n) :=
  fun c hc => h c (List.mem_of_mem_take hc)

theorem NulFree.pad {s : List Char} (h : NulFree s) (k : Nat) :
    NulFree (s ++ List.replicate k ' ') := by
  intro c hc
  rcases List.mem_append.mp hc with h1 | h1
  · exact h c h1
  · rw [(List.mem_replicate.mp h1).2]; decide

theorem strncpy_full (text : List Char) (n m : Nat) (ht : NulFree text)
    (hn : n < text.length) (hm : m = n + 1) :
    strncpy (Buf.alloc m) text m = some ((text.take n).map some ++ [some text[n]]) := by
  subst hm
  have h := strncpy_from_take text (n + 1) [] (List.replicate (n + 1) none) ht (by omega)
    (by rw [List.length_replicate])
  have hd : (List.replicate (n + 1) (none : Option Char)).drop (n + 1) = [] :=
    List.drop_eq_nil_of_le (by rw [List.length_replicate])
  rw [hd, List.take_succ, List.getElem?_eq_getElem hn] at h
  simp only [List.nil_append, List.append_nil, List.length_nil, Option.toList,
    List.map_append, List.map_cons, List.map_nil] at h
  exact h

theorem store_last (text : List Char) (n : Nat) (c : Char) (hn : n ≤ text.length) :
    Buf.store ((text.take n).map some ++ [some c]) n '\x00'
      = some ((text.take n).map some ++ [some '\x00']) := by
  have h := store_at ((text.take n).map some) (some c) [] '\x00'
  have hl : ((text.take n).map some).length = n := by
    rw [List.length_map, List.length_take]; omega
  rw [hl] at h
  exact h

theorem PrintLine_run_long (row : Nat) (text : List Char) (w : World) (h : Healthy w)
    (hr1 : 1 ≤ w.lcd_conf.I2C_LCD_nRow) (hr4 : w.lcd_conf.I2C_LCD_nRow ≤ 4)
    (hc19 : 19 ≤ w.lcd_conf.I2C_LCD_nCol) (hc : w.lcd_conf.I2C_LCD_nCol < 256)
    (ht : NulFree text) (hl : w.lcd_conf.I2C_LCD_nCol < text.length) :
    ∃ off, [0x00, 0x40, 0x14, 0x54][min row (w.lcd_conf.I2C_LCD_nRow - 1)]? = some off ∧
      LCD_PrintLine row text w = Res.ok () (w.log (commandEvents (u8 (0x80 ||| off))
        ++ stringEvents ((text.take 20 ++ List.replicate (w.lcd_conf.I2C_LCD_nCol - 20) ' ').take
            w.lcd_conf.I2C_LCD_nCol))) := by
  obtain ⟨off, hoff, hrun⟩ := SetCursor_run 0 row w h hr1 hr4 (by omega) hc
  refine ⟨off, hoff, ?_⟩
  have hmin : min 0 (w.lcd_conf.I2C_LCD_nCol - 1) = 0 := by omega
  rw [hmin, Nat.zero_add] at hrun
  have hlen : strlen text > w.lcd_conf.I2C_LCD_nCol := by
    rw [strlen_nulFree text ht]; exact hl
  have h20 : (text.take 20).length = 20 := by
    rw [List.length_take]; omega
  rcases Nat.lt_or_ge w.lcd_conf.I2C_LCD_nCol 20 with hlt | hge
  · -- width 19: the 20 copied characters fill the buffer, the NUL replaces the last
    have hn : w.lcd_conf.I2C_LCD_nCol < text.length := hl
    have e1 := strncpy_full text w.lcd_conf.I2C_LCD_nCol 20 ht hn (by omega)
    have e1a : strncpy (Buf.alloc (w.lcd_conf.I2C_LCD_nCol + 1)) text 20
        = some ((text.take w.lcd_conf.I2C_LCD_nCol).map some
            ++ [some text[w.lcd_conf.I2C_LCD_nCol]]) := by
      have h21 : w.lcd_conf.I2C_LCD_nCol + 1 = 20 := by omega
      rw [h21]; exact e1
    have e2 : w.lcd_conf.I2C_LCD_nCol - 20 = 0 := by omega
    have e3 := store_last text w.lcd_conf.I2C_LCD_nCol text[w.lcd_conf.I2C_LCD_nCol] (by omega)
    have e5 : (text.take 20 ++ List.replicate 0 ' ').take w.lcd_conf.I2C_LCD_nCol
        = text.take w.lcd_conf.I2C_LCD_nCol := by
      rw [List.replicate_zero, List.append_nil, List.take_take]
      congr 1
      omega
    simp only [LCD_PrintLine, getConf, bind_apply, andThen_ok, hlen, if_true, e1a,
      orUndef_some, e2, fill_spaces, e3, hrun, cstr_of_text _ [] (ht.take _),
      SendString_run _ (ht.take _) _ (h.log _), log_log, e5]
  · -- width 20 or more: 20 characters of the text, then spaces
    have e1 : strncpy (Buf.alloc (w.lcd_conf.I2C_LCD_nCol + 1)) text 20
        = some ((text.take 20).map some
            ++ List.replicate (w.lcd_conf.I2C_LCD_nCol + 1 - 20) none) := by
      have h1 := strncpy_from_take text 20 [] (List.replicate (w.lcd_conf.I2C_LCD_nCol + 1) none)
        ht (by omega) (by rw [List.length_replicate]; omega)
      rw [List.drop_replicate] at h1
      exact h1
    have e2 := line_fill (text.take 20) w.lcd_conf.I2C_LCD_nCol (by omega)
    have e3 := line_terminate (text.take 20) w.lcd_conf.I2C_LCD_nCol (by omega)
    have e5 : (text.take 20 ++ List.replicate (w.lcd_conf.I2C_LCD_nCol - 20) ' ').take
        w.lcd_conf.I2C_LCD_nCol
          = text.take 20 ++ List.replicate (w.lcd_conf.I2C_LCD_nCol - 20) ' ' := by
      apply List.take_of_length_le
      rw [List.length_append, List.length_replicate, h20]
      omega
    rw [h20] at e2 e3
    simp only [LCD_PrintLine, getConf, bind_apply, andThen_ok, hlen, if_true, e1, e2, e3,
      orUndef_some, hrun, cstr_of_text _ [] ((ht.take 20).pad _),
      SendString_run _ ((ht.take 20).pad _) _ (h.log _), log_log, e5]

/-! ## Line printing -/

/-- C10: on a configured geometry (at least one column, one to four rows) and
a transport that accepts every write, for every text no longer than the configured width, `LCD_PrintLine row text`
returns, and after the cursor command for column 0 of the clamped row the data
characters it transmits are exactly `text` followed by
`columns - length(text)` spaces. -/
theorem PrintLine_pads (row : Nat) (text : List Char) (w : World) (hw : Healthy w)
    (hc1 : 1 ≤ w.lcd_conf.I2C_LCD_nCol) (hc : w.lcd_conf.I2C_LCD_nCol < 256)
    (hr1 : 1 ≤ w.lcd_conf.I2C_LCD_nRow) (hr4 : w.lcd_conf.I2C_LCD_nRow ≤ 4)
    (ht : NulFree text) (hl : text.length ≤ w.lcd_conf.I2C_LCD_nCol) :
    ∃ w1 off,
      [0x00, 0x40, 0x14, 0x54][min row (w.lcd_conf.I2C_LCD_nRow - 1)]? = some off ∧
      LCD_PrintLine row text w = Res.ok () w1 ∧
      busWrites w1.trace = busWrites w.trace ++ commandWrites (0x80 ||| off)
        ++ textWrites (text ++ List.replicate (w.lcd_conf.I2C_LCD_nCol - text.length) ' ') := by
  obtain ⟨off, hoff, hrun⟩ := PrintLine_run row text w hw hr1 hr4 hc1 hc ht hl
  refine ⟨_, off, hoff, hrun, ?_⟩
  rw [log_trace, busWrites_append, busWrites_append, busWrites_commandEvents_u8,
    busWrites_stringEvents, List.append_assoc]

theorem PrintLine_pads_witness :
    (Healthy (idleWorld 16 2) ∧ 1 ≤ (idleWorld 16 2).lcd_conf.I2C_LCD_nCol ∧
      (idleWorld 16 2).lcd_conf.I2C_LCD_nCol < 256 ∧
      1 ≤ (idleWorld 16 2).lcd_conf.I2C_LCD_nRow ∧
      (idleWorld 16 2).lcd_conf.I2C_LCD_nRow ≤ 4 ∧
      NulFree "23.5 C".toList ∧
      "23.5 C".toList.length ≤ (idleWorld 16 2).lcd_conf.I2C_LCD_nCol) ∧
    ∃ w1 off,
      [0x00, 0x40, 0x14, 0x54][min 1 ((idleWorld 16 2).lcd_conf.I2C_LCD_nRow - 1)]? = some off ∧
      LCD_PrintLine 1 "23.5 C".toList (idleWorld 16 2) = Res.ok () w1 ∧
      busWrites w1.trace = busWrites (idleWorld 16 2).trace ++ commandWrites (0x80 ||| off)
        ++ textWrites ("23.5 C".toList ++ List.replicate
            ((idleWorld 16 2).lcd_conf.I2C_LCD_nCol - "23.5 C".toList.length) ' ') :=
  ⟨⟨idleWorld_healthy 16 2, by decide, by decide, by decide, by decide, by decide, by decide⟩,
   PrintLine_pads 1 "23.5 C".toList (idleWorld 16 2) (idleWorld_healthy 16 2)
     (by decide) (by decide) (by decide) (by decide) (by decide) (by decide)⟩

/-! ## Texts with a NUL inside, clearing, homing -/

theorem cText_nulFree (s : List Char) : NulFree (cText s) := by
  induction s with
  | nil => intro c hc; simp [cText] at hc
  | cons d s ih =>
    intro c hc
    by_cases hd : d = '\x00'
    · simp [cText, hd] at hc
    · simp only [cText, hd, if_false, List.mem_cons] at hc
      rcases hc with h | h
      · rw [h]; exact hd
      · exact ih c h

theorem cText_of_nulFree (s : List Char) (h : NulFree s) : cText s = s := by
  induction s with
  | nil => rfl
  | cons c s ih => simp [cText, h.head, ih h.tail]

theorem SendString_cText (s : List Char) : LCD_SendString s = LCD_SendString (cText s) := by
  induction s with
  | nil => rfl
  | cons c s ih =>
    by_cases hc : c = '\x00'
    · simp [cText, hc, LCD_SendString]
    · simp only [cText, hc, if_false, LCD_SendString, ih]

theorem SendString_run_any (s : List Char) (w : World) (h : Healthy w) :
    LCD_SendString s w = Res.ok () (w.log (stringEvents (cText s))) := by
  rw [SendString_cText]
  exact SendString_run _ (cText_nulFree s) w h

theorem Clear_run (w : World) (h : Healthy w) :
    LCD_Clear w = Res.ok () (w.log (commandEvents 0x01 ++ [Event.delay 2])) := by
  simp [LCD_Clear, SendCommand_run, HAL_Delay_run, h]

theorem Home_run (w : World) (h : Healthy w) :
    LCD_Home w = Res.ok () (w.log (commandEvents 0x02 ++ [Event.delay 2])) := by
  simp [LCD_Home, SendCommand_run, HAL_Delay_run, h]

theorem Print_run (s : List Char) (w : World) (h : Healthy w) :
    LCD_Print s w = Res.ok () (w.log (commandEvents 0x01 ++ [Event.delay 2]
      ++ (commandEvents 0x02 ++ [Event.delay 2]) ++ stringEvents (cText s))) := by
  simp [LCD_Print, Clear_run, Home_run, SendString_run_any, h, Healthy.log]

theorem busWrites_command_delay (b : Nat) (hb : b < 256) :
    busWrites (commandEvents b ++ [Event.delay 2]) = commandWrites b := by
  rw [busWrites_append, (command_bytes b hb).1]
  simp [busWrites]

theorem textWrites_length (s : List Char) : (textWrites s).length = 4 * s.length := by
  induction s with
  | nil => rfl
  | cons c s ih =>
    simp only [textWrites, List.length_append, ih, List.length_cons]
    simp [dataWrites, byteWrites, nibbleWrites]
    omega

/-! ## Delays -/

theorem nibbleEvents_eq (n m : Nat) (hn : n < 256) (hm : m < 2) :
    nibbleEvents n m =
      [Event.write (transmittedByte n m ||| 0x04), Event.delay 5,
       Event.write (transmittedByte n m &&& 0xFB)] := by
  have h := nibble_bytes n hn m hm
  simp only [nibbleEvents, busWrites, nibbleWrites, List.cons.injEq, and_true] at h
  simp only [nibbleEvents, h.1, h.2]

theorem commandEvents_eq (b : Nat) (hb : b < 256) :
    commandEvents b =
      [Event.write (transmittedByte (b &&& 0xF0) 0x00 ||| 0x04), Event.delay 5,
       Event.write (transmittedByte (b &&& 0xF0) 0x00 &&& 0xFB),
       Event.write (transmittedByte ((b <<< 4) &&& 0xF0) 0x00 ||| 0x04), Event.delay 5,
       Event.write (transmittedByte ((b <<< 4) &&& 0xF0) 0x00 &&& 0xFB),
       Event.delay 2] := by
  have h := (command_bytes b hb).1
  simp only [commandEvents, nibbleEvents, busWrites, commandWrites, byteWrites, nibbleWrites,
    List.cons_append, List.nil_append, List.cons.injEq, and_true] at h
  obtain ⟨h1, h2, h3, h4⟩ := h
  simp only [commandEvents, nibbleEvents, List.cons_append, List.nil_append, h1, h2, h3, h4]

theorem dataEvents_eq (b : Nat) (hb : b < 256) :
    dataEvents b =
      [Event.write (transmittedByte (b &&& 0xF0) 0x01 ||| 0x04), Event.delay 5,
       Event.write (transmittedByte (b &&& 0xF0) 0x01 &&& 0xFB),
       Event.write (transmittedByte ((b <<< 4) &&& 0xF0) 0x01 ||| 0x04), Event.delay 5,
       Event.write (transmittedByte ((b <<< 4) &&& 0xF0) 0x01 &&& 0xFB),
       Event.delay 1] := by
  have h := (command_bytes b hb).2.1
  simp only [dataEvents, nibbleEvents, busWrites, dataWrites, byteWrites, nibbleWrites,
    List.cons_append, List.nil_append, List.cons.injEq, and_true] at h
  obtain ⟨h1, h2, h3, h4⟩ := h
  simp only [dataEvents, nibbleEvents, List.cons_append, List.nil_append, h1, h2, h3, h4]

/-- C19: on a transport that accepts every write, in the trace of bus writes
and delays, a nibble transfer is: write with enable set, delay (5 ms), write
with enable cleared; `LCD_SendCommand` ends with a 2 ms delay after its fourth
write and `LCD_SendData` with a 1 ms delay after its fourth write; `LCD_Begin`
waits 50 ms before the first 8-bit function-set nibble and 5 ms before the
second and before the third. -/
theorem delays_in_trace (n m b cols rows : Nat) (w : World)
    (hn : n < 256) (hm : m = 0x00 ∨ m = 0x01) (hb : b < 256) (hw : Healthy w) :
    (∃ w1, LCD_SendNibble n m w = Res.ok () w1 ∧ w1.trace = w.trace ++
      [Event.write (transmittedByte n m ||| 0x04), Event.delay 5,
       Event.write (transmittedByte n m &&& 0xFB)]) ∧
    (∃ w1, LCD_SendCommand b w = Res.ok () w1 ∧ w1.trace = w.trace ++
      [Event.write (transmittedByte (b &&& 0xF0) 0x00 ||| 0x04), Event.delay 5,
       Event.write (transmittedByte (b &&& 0xF0) 0x00 &&& 0xFB),
       Event.write (transmittedByte ((b <<< 4) &&& 0xF0) 0x00 ||| 0x04), Event.delay 5,
       Event.write (transmittedByte ((b <<< 4) &&& 0xF0) 0x00 &&& 0xFB),
       Event.delay 2]) ∧
    (∃ w1, LCD_SendData b w = Res.ok () w1 ∧ w1.trace = w.trace ++
      [Event.write (transmittedByte (b &&& 0xF0) 0x01 ||| 0x04), Event.delay 5,
       Event.write (transmittedByte (b &&& 0xF0) 0x01 &&& 0xFB),
       Event.write (transmittedByte ((b <<< 4) &&& 0xF0) 0x01 ||| 0x04), Event.delay 5,
       Event.write (transmittedByte ((b <<< 4) &&& 0xF0) 0x01 &&& 0xFB),
       Event.delay 1]) ∧
    (∃ w1, LCD_Begin cols rows w = Res.ok () w1 ∧ w1.trace = w.trace ++
      [Event.delay 50,
       Event.write 0x3C, Event.delay 5, Event.write 0x38,
       Event.delay 5,
       Event.write 0x3C, Event.delay 5, Event.write 0x38,
       Event.delay 5,
       Event.write 0x3C, Event.delay 5, Event.write 0x38,
       Event.delay 1,
       Event.write 0x2C, Event.delay 5, Event.write 0x28,
       Event.delay 1,
       Event.write 0x2C, Event.delay 5, Event.write 0x28,
       Event.write 0x8C, Event.delay 5, Event.write 0x88, Event.delay 2,
       Event.write 0x0C, Event.delay 5, Event.write 0x08,
       Event.write 0x8C, Event.delay 5, Event.write 0x88, Event.delay 2,
       Event.write 0x0C, Event.delay 5, Event.write 0x08,
       Event.write 0x1C, Event.delay 5, Event.write 0x18, Event.delay 2,
       Event.delay 2,
       Event.write 0x0C, Event.delay 5, Event.write 0x08,
       Event.write 0x6C, Event.delay 5, Event.write 0x68, Event.delay 2,
       Event.write 0x0C, Event.delay 5, Event.write 0x08,
       Event.write 0xCC, Event.delay 5, Event.write 0xC8, Event.delay 2]) := by
  have hm2 : m < 2 := by rcases hm with h | h <;> omega
  refine ⟨⟨_, SendNibble_run n m w hw, ?_⟩, ⟨_, SendCommand_run b w hw, ?_⟩,
    ⟨_, SendData_run b w hw, ?_⟩, ⟨_, Begin_run cols rows w hw, ?_⟩⟩
  · rw [log_trace, nibbleEvents_eq n m hn hm2]
  · rw [log_trace, commandEvents_eq b hb]
  · rw [log_trace, dataEvents_eq b hb]
  · rw [log_trace]
    exact congrArg (w.trace ++ ·) (by decide)

theorem delays_in_trace_witness :
    (0x35 < 256 ∧ 0x41 < 256 ∧ Healthy (idleWorld 0 0)) ∧
    (∃ w1, LCD_SendCommand 0x41 (idleWorld 0 0) = Res.ok () w1 ∧
      w1.trace = (idleWorld 0 0).trace ++
      [Event.write (transmittedByte (0x41 &&& 0xF0) 0x00 ||| 0x04), Event.delay 5,
       Event.write (transmittedByte (0x41 &&& 0xF0) 0x00 &&& 0xFB),
       Event.write (transmittedByte ((0x41 <<< 4) &&& 0xF0) 0x00 ||| 0x04), Event.delay 5,
       Event.write (transmittedByte ((0x41 <<< 4) &&& 0xF0) 0x00 &&& 0xFB),
       Event.delay 2]) :=
  ⟨⟨by decide, by decide, idleWorld_healthy 0 0⟩,
   (delays_in_trace 0x35 0x01 0x41 20 4 (idleWorld 0 0) (by decide) (Or.inr rfl) (by decide)
     (idleWorld_healthy 0 0)).2.1⟩

/-! ## The row table -/

/-- C20: on a configured geometry with one to four rows, for every row
argument, the index with which `LCD_SetCursor` reads the four-entry table
`row_offsets` = {0x00, 0x40, 0x14, 0x54} is at most 3: the read is inside the
table and the call goes on to send its command with the entry read. -/
theorem SetCursor_row_index_in_table (col row : Nat) (w : World)
    (hr1 : 1 ≤ w.lcd_conf.I2C_LCD_nRow) (hr4 : w.lcd_conf.I2C_LCD_nRow ≤ 4) :
    ∃ idx off,
      idx = (if row ≥ w.lcd_conf.I2C_LCD_nRow then u8_pred w.lcd_conf.I2C_LCD_nRow else row) ∧
      idx ≤ 3 ∧ row_offsets.length = 4 ∧
      row_offsets = [0x00, 0x40, 0x14, 0x54] ∧
      row_offsets[idx]? = some off ∧
      LCD_SetCursor col row w =
        LCD_SendCommand (u8 (LCD_SETDDRAMADDR |||
          ((if col ≥ w.lcd_conf.I2C_LCD_nCol then u8_pred w.lcd_conf.I2C_LCD_nCol else col)
            + off))) w := by
  have hidx : (if row ≥ w.lcd_conf.I2C_LCD_nRow then u8_pred w.lcd_conf.I2C_LCD_nRow else row)
      ≤ 3 := by
    unfold u8_pred; split <;> omega
  generalize hi : (if row ≥ w.lcd_conf.I2C_LCD_nRow then u8_pred w.lcd_conf.I2C_LCD_nRow
    else row) = idx at hidx
  have hlook : ∃ off, row_offsets[idx]? = some off := by
    interval_cases idx <;> exact ⟨_, rfl⟩
  obtain ⟨off, hoff⟩ := hlook
  refine ⟨idx, off, rfl, hidx, rfl, rfl, hoff, ?_⟩
  simp only [LCD_SetCursor, getConf, bind_apply, andThen_ok, hi, hoff, orUndef_some]

theorem SetCursor_row_index_in_table_witness :
    (1 ≤ (idleWorld 16 2).lcd_conf.I2C_LCD_nRow ∧ (idleWorld 16 2).lcd_conf.I2C_LCD_nRow ≤ 4) ∧
    ∃ idx off,
      idx = (if 255 ≥ (idleWorld 16 2).lcd_conf.I2C_LCD_nRow
        then u8_pred (idleWorld 16 2).lcd_conf.I2C_LCD_nRow else 255) ∧
      idx ≤ 3 ∧ row_offsets.length = 4 ∧
      row_offsets = [0x00, 0x40, 0x14, 0x54] ∧
      row_offsets[idx]? = some off ∧
      LCD_SetCursor 3 255 (idleWorld 16 2) =
        LCD_SendCommand (u8 (LCD_SETDDRAMADDR |||
          ((if 3 ≥ (idleWorld 16 2).lcd_conf.I2C_LCD_nCol
              then u8_pred (idleWorld 16 2).lcd_conf.I2C_LCD_nCol else 3)
            + off))) (idleWorld 16 2) :=
  ⟨⟨by decide, by decide⟩,
   SetCursor_row_index_in_table 3 255 (idleWorld 16 2) (by decide) (by decide)⟩

/-! ## Printing a text -/

/-- C14: on a transport that accepts every write, for every text, the bus
writes of `LCD_Print text` are those of `LCD_Clear`, then those of `LCD_Home`,
then those of `LCD_SendString text`; `LCD_Clear` sends the single command 0x01
and `LCD_Home` the single command 0x02. -/
theorem Print_is_clear_home_sendString (text : List Char) (w : World) (hw : Healthy w) :
    ∃ wc wh ws wp dc dh ds,
      LCD_Clear w = Res.ok () wc ∧ busWrites wc.trace = busWrites w.trace ++ dc ∧
      LCD_Home w = Res.ok () wh ∧ busWrites wh.trace = busWrites w.trace ++ dh ∧
      LCD_SendString text w = Res.ok () ws ∧ busWrites ws.trace = busWrites w.trace ++ ds ∧
      LCD_Print text w = Res.ok () wp ∧
      busWrites wp.trace = busWrites w.trace ++ (dc ++ dh ++ ds) ∧
      dc = commandWrites 0x01 ∧ dh = commandWrites 0x02 := by
  refine ⟨_, _, _, _, commandWrites 0x01, commandWrites 0x02, textWrites (cText text),
    Clear_run w hw, ?_, Home_run w hw, ?_, SendString_run_any text w hw, ?_,
    Print_run text w hw, ?_, rfl, rfl⟩
  · rw [log_trace, busWrites_append, busWrites_command_delay _ (by decide)]
  · rw [log_trace, busWrites_append, busWrites_command_delay _ (by decide)]
  · rw [log_trace, busWrites_append, busWrites_stringEvents]
  · rw [log_trace, busWrites_append, busWrites_append, busWrites_append,
      busWrites_command_delay _ (by decide), busWrites_command_delay _ (by decide),
      busWrites_stringEvents]

theorem Print_is_clear_home_sendString_witness :
    Healthy (idleWorld 16 2) ∧
    ∃ wc wh ws wp dc dh ds,
      LCD_Clear (idleWorld 16 2) = Res.ok () wc ∧
      busWrites wc.trace = busWrites (idleWorld 16 2).trace ++ dc ∧
      LCD_Home (idleWorld 16 2) = Res.ok () wh ∧
      busWrites wh.trace = busWrites (idleWorld 16 2).trace ++ dh ∧
      LCD_SendString "Hola".toList (idleWorld 16 2) = Res.ok () ws ∧
      busWrites ws.trace = busWrites (idleWorld 16 2).trace ++ ds ∧
      LCD_Print "Hola".toList (idleWorld 16 2) = Res.ok () wp ∧
      busWrites wp.trace = busWrites (idleWorld 16 2).trace ++ (dc ++ dh ++ ds) ∧
      dc = commandWrites 0x01 ∧ dh = commandWrites 0x02 :=
  ⟨idleWorld_healthy 16 2,
   Print_is_clear_home_sendString "Hola".toList (idleWorld 16 2) (idleWorld_healthy 16 2)⟩

/-- C15: on a transport that accepts every write, for every text of `n`
characters, none of them NUL, `LCD_SendString text` returns after exactly
`4 * n` bus writes: the writes of the `LCD_SendData` transfer of each
character, in the order of the text; the empty text gives no bus write. -/
theorem SendString_writes (text : List Char) (w : World) (hw : Healthy w)
    (ht : NulFree text) :
    (∃ w1 ws, LCD_SendString text w = Res.ok () w1 ∧
      busWrites w1.trace = busWrites w.trace ++ ws ∧
      ws = textWrites text ∧ ws.length = 4 * text.length) ∧
    (∀ (c : Char) (rest : List Char),
      textWrites (c :: rest) = dataWrites c.toNat ++ textWrites rest) ∧
    (∀ (c : Char) (wd : World), Healthy wd →
      ∃ w1, LCD_SendData (u8 c.toNat) wd = Res.ok () w1 ∧
        busWrites w1.trace = busWrites wd.trace ++ dataWrites c.toNat) ∧
    (∃ w1, LCD_SendString [] w = Res.ok () w1 ∧ busWrites w1.trace = busWrites w.trace) := by
  refine ⟨⟨_, textWrites text, SendString_run text ht w hw, ?_, rfl, textWrites_length text⟩,
    fun _ _ => rfl, ?_, ⟨_, SendString_run [] (by intro c hc; simp at hc) w hw, ?_⟩⟩
  · rw [log_trace, busWrites_append, busWrites_stringEvents]
  · intro c wd hwd
    refine ⟨_, SendData_run _ wd hwd, ?_⟩
    have h := busWrites_stringEvents [c]
    simp only [stringEvents, textWrites, busWrites_append, List.append_nil] at h
    rw [log_trace, busWrites_append]
    simpa [busWrites] using h
  · rw [log_trace, busWrites_append]
    simp [stringEvents, busWrites]

theorem SendString_writes_witness :
    (Healthy (idleWorld 16 2) ∧ NulFree "Hola".toList) ∧
    ∃ w1 ws, LCD_SendString "Hola".toList (idleWorld 16 2) = Res.ok () w1 ∧
      busWrites w1.trace = busWrites (idleWorld 16 2).trace ++ ws ∧
      ws = textWrites "Hola".toList ∧ ws.length = 4 * "Hola".toList.length :=
  ⟨⟨idleWorld_healthy 16 2, by decide⟩,
   (SendString_writes "Hola".toList (idleWorld 16 2) (idleWorld_healthy 16 2) (by decide)).1⟩

/-! ## Lines longer than the width -/

/-- C11 (failing input): on a 24 x 2 display, `LCD_PrintLine` of a text of 26
characters transmits its first 20 characters followed by 4 spaces, not its
first 24 characters: the length is cut to the literal 20, not to the
configured width. -/
theorem PrintLine_26_on_24 :
    ∃ w1, LCD_PrintLine 0 "ABCDEFGHIJKLMNOPQRSTUVWXYZ".toList (idleWorld 24 2) = Res.ok () w1 ∧
      busWrites w1.trace = commandWrites 0x80 ++ textWrites "ABCDEFGHIJKLMNOPQRST    ".toList ∧
      busWrites w1.trace ≠ commandWrites 0x80 ++ textWrites "ABCDEFGHIJKLMNOPQRSTUVWX".toList := by
  obtain ⟨off, hoff, hrun⟩ := PrintLine_run_long 0 "ABCDEFGHIJKLMNOPQRSTUVWXYZ".toList
    (idleWorld 24 2) (idleWorld_healthy 24 2) (by decide) (by decide) (by decide) (by decide)
    (by decide) (by decide)
  have h0 : off = 0 := (Option.some.inj hoff).symm
  subst h0
  have hw : busWrites ((idleWorld 24 2).log (commandEvents (u8 (0x80 ||| 0))
      ++ stringEvents (("ABCDEFGHIJKLMNOPQRSTUVWXYZ".toList.take 20
          ++ List.replicate ((idleWorld 24 2).lcd_conf.I2C_LCD_nCol - 20) ' ').take
            (idleWorld 24 2).lcd_conf.I2C_LCD_nCol))).trace
      = commandWrites 0x80 ++ textWrites "ABCDEFGHIJKLMNOPQRST    ".toList := by
    rw [log_trace, busWrites_append, busWrites_append, busWrites_commandEvents_u8,
      busWrites_stringEvents]
    rfl
  refine ⟨_, hrun, hw, ?_⟩
  rw [hw]
  decide

/-! ## Sensor readout -/

theorem digitChar_ne_nul : ∀ k : Nat, k < 10 → Nat.digitChar k ≠ '\x00' := by
  decide

theorem toDigitsCore_no_nul (fuel : Nat) : ∀ (n : Nat) (acc : List Char),
    NulFree acc → NulFree (Nat.toDigitsCore 10 fuel n acc) := by
  induction fuel with
  | zero => intro n acc hacc; simpa [Nat.toDigitsCore] using hacc
  | succ f ih =>
    intro n acc hacc
    have hacc1 : NulFree (Nat.digitChar (n % 10) :: acc) := by
      intro c hc
      rcases List.mem_cons.mp hc with h | h
      · rw [h]; exact digitChar_ne_nul _ (Nat.mod_lt _ (by decide))
      · exact hacc c h
    unfold Nat.toDigitsCore
    by_cases hz : n / 10 = 0
    · simpa [hz] using hacc1
    · simpa [hz] using ih _ _ hacc1

theorem toDigits_no_nul (n : Nat) : NulFree (Nat.toDigits 10 n) :=
  toDigitsCore_no_nul _ _ _ (by intro c hc; simp at hc)

theorem NulFree.append {s t : List Char} (hs : NulFree s) (ht : NulFree t) :
    NulFree (s ++ t) := by
  intro c hc
  rcases List.mem_append.mp hc with h | h
  · exact hs c h
  · exact ht c h

set_option maxRecDepth 100000 in
theorem toDigits_length_small : ∀ n : Nat, n < 328 → (Nat.toDigits 10 n).length ≤ 3 := by
  decide

theorem digitsText_nulFree (v decimals : Nat) : NulFree (digitsText v decimals) := by
  unfold digitsText
  split
  · rw [printf_02d_two_digits _ (Nat.mod_lt _ (by decide))]
    refine ((toDigits_no_nul _).append (by decide)).append ?_
    intro c hc
    simp only [List.mem_cons, List.mem_singleton, List.not_mem_nil, or_false] at hc
    rcases hc with h | h
    · rw [h]; exact digitChar_ne_nul _ (by omega)
    · rw [h]; exact digitChar_ne_nul _ (Nat.mod_lt _ (by decide))
  · rw [printf_d_digit _ (by omega)]
    refine ((toDigits_no_nul _).append (by decide)).append ?_
    intro c hc
    simp only [List.mem_singleton] at hc
    rw [hc]; exact digitChar_ne_nul _ (by omega)

theorem digitsText_length (v decimals : Nat) (hv : v ≤ 32768) :
    (digitsText v decimals).length ≤ 6 := by
  have hd := toDigits_length_small (v / 100) (by omega)
  unfold digitsText
  split
  · rw [printf_02d_two_digits _ (Nat.mod_lt _ (by decide))]
    simp only [List.length_append, List.length_cons, List.length_nil]
    omega
  · rw [printf_d_digit _ (by omega)]
    simp only [List.length_append, List.length_cons, List.length_nil]
    omega

theorem int16_cases (x : Int) (h : IsInt16 x) :
    (∃ n : Nat, x = (n : Int) ∧ n ≤ 32767) ∨ (∃ n : Nat, x = -(n : Int) ∧ 0 < n ∧ n ≤ 32768) := by
  obtain ⟨h1, h2⟩ := h
  rcases Int.lt_or_le x 0 with hneg | hpos
  · right
    refine ⟨x.natAbs, ?_, ?_, ?_⟩ <;> omega
  · left
    refine ⟨x.toNat, ?_, ?_⟩ <;> omega

/-- For an `int16_t` value `FormatIntDecimal` has a result: a text without NUL
of at most 7 characters. -/
theorem FormatIntDecimal_int16 (x : Int) (decimals : Nat) (h : IsInt16 x) :
    FormatIntDecimal x decimals = some (valueText x decimals) ∧
      NulFree (valueText x decimals) ∧ (valueText x decimals).length ≤ 7 := by
  rcases int16_cases x h with ⟨n, hx, hn⟩ | ⟨n, hx, h0, hn⟩
  · subst hx
    rw [valueText_ofNat]
    exact ⟨FormatIntDecimal_ofNat n decimals, digitsText_nulFree n decimals,
      Nat.le_trans (digitsText_length n decimals (by omega)) (by decide)⟩
  · subst hx
    rw [valueText_neg n decimals h0 (by omega)]
    refine ⟨FormatIntDecimal_neg n decimals h0 (by omega), ?_, ?_⟩
    · intro c hc
      rcases List.mem_cons.mp hc with h1 | h1
      · rw [h1]; decide
      · exact digitsText_nulFree n decimals c h1
    · have := digitsText_length n decimals hn
      simp only [List.length_cons]
      omega

theorem sprintf_text (s : List Char) (h : s.length ≤ 7) : sprintf_into 10 s = some s := by
  unfold sprintf_into
  rw [if_pos (by omega)]

theorem sprintf_value (x : Int) (decimals : Nat) (h : IsInt16 x) :
    (FormatIntDecimal x decimals).bind (sprintf_into 10) = some (valueText x decimals) := by
  obtain ⟨h1, _, h3⟩ := FormatIntDecimal_int16 x decimals h
  rw [h1, Option.some_bind, sprintf_text _ h3]

theorem sprintf_line (cap : Nat) (s : List Char) (h : s.length ≤ cap) :
    sprintf_into (cap + 1) s = some s := by
  unfold sprintf_into
  rw [if_pos (by omega)]

theorem lines_nulFree (t g a : Int) (ht : IsInt16 t) (hg : IsInt16 g) (ha : IsInt16 a) :
    NulFree (tempLine t) ∧ NulFree (gyroLine g) ∧ NulFree (accelLine a) := by
  refine ⟨?_, ?_, ?_⟩
  · exact (NulFree.append (by decide) (FormatIntDecimal_int16 t 1 ht).2.1).append (by decide)
  · exact (NulFree.append (by decide) (FormatIntDecimal_int16 g 2 hg).2.1).append (by decide)
  · exact (NulFree.append (by decide) (FormatIntDecimal_int16 a 2 ha).2.1).append (by decide)

theorem orUndef_some_bind {α β : Type} (a : α) (f : α → Exec β) :
    (orUndef (some a) >>= f) = f a := rfl

theorem PrintSensorData_as_lines (t g a : Int) (w : World)
    (ht : IsInt16 t) (hg : IsInt16 g) (ha : IsInt16 a)
    (ft : (tempLine t).length ≤ w.lcd_conf.I2C_LCD_nCol)
    (fg : (gyroLine g).length ≤ w.lcd_conf.I2C_LCD_nCol)
    (fa : (accelLine a).length ≤ w.lcd_conf.I2C_LCD_nCol) :
    LCD_PrintSensorData t g a w =
      (do LCD_PrintLine 0 (tempLine t)
          LCD_PrintLine 1 (gyroLine g)
          LCD_PrintLine 2 (accelLine a)) w := by
  have e1 := sprintf_line w.lcd_conf.I2C_LCD_nCol
    ("Temp: ".toList ++ valueText t 1 ++ " C".toList) ft
  have e2 := sprintf_line w.lcd_conf.I2C_LCD_nCol
    ("Gx: ".toList ++ valueText g 2 ++ " deg/s".toList) fg
  have e3 := sprintf_line w.lcd_conf.I2C_LCD_nCol
    ("Ax: ".toList ++ valueText a 2 ++ " g".toList) fa
  simp only [LCD_PrintSensorData, getConf, bind_apply, andThen_ok, sprintf_value t 1 ht,
    sprintf_value g 2 hg, sprintf_value a 2 ha, orUndef_some, orUndef_some_bind, e1, e2, e3,
    tempLine, gyroLine, accelLine]

theorem PrintSensorData_run (t g a : Int) (w : World) (h : Healthy w)
    (hr1 : 1 ≤ w.lcd_conf.I2C_LCD_nRow) (hr : w.lcd_conf.I2C_LCD_nRow < 256)
    (hc : w.lcd_conf.I2C_LCD_nCol < 256)
    (ht : IsInt16 t) (hg : IsInt16 g) (ha : IsInt16 a)
    (ft : (tempLine t).length ≤ w.lcd_conf.I2C_LCD_nCol)
    (fg : (gyroLine g).length ≤ w.lcd_conf.I2C_LCD_nCol)
    (fa : (accelLine a).length ≤ w.lcd_conf.I2C_LCD_nCol) :
    ∃ o0 o1 o2,
      [0x00, 0x40, 0x14, 0x54][min 0 (w.lcd_conf.I2C_LCD_nRow - 1)]? = some o0 ∧
      [0x00, 0x40, 0x14, 0x54][min 1 (w.lcd_conf.I2C_LCD_nRow - 1)]? = some o1 ∧
      [0x00, 0x40, 0x14, 0x54][min 2 (w.lcd_conf.I2C_LCD_nRow - 1)]? = some o2 ∧
      LCD_PrintSensorData t g a w = Res.ok () (w.log
        (lineEvents o0 w.lcd_conf.I2C_LCD_nCol (tempLine t)
          ++ lineEvents o1 w.lcd_conf.I2C_LCD_nCol (gyroLine g)
          ++ lineEvents o2 w.lcd_conf.I2C_LCD_nCol (accelLine a))) := by
  obtain ⟨nt, ng, na⟩ := lines_nulFree t g a ht hg ha
  have hc1 : 1 ≤ w.lcd_conf.I2C_LCD_nCol := by
    have : 0 < (tempLine t).length := by simp [tempLine]
    omega
  obtain ⟨o0, ho0, r0⟩ := PrintLine_run_row 0 (tempLine t) w h hr1 hr (by omega) hc1 hc nt ft
  have r0a : LCD_PrintLine 0 (tempLine t) w
      = Res.ok () (w.log (lineEvents o0 w.lcd_conf.I2C_LCD_nCol (tempLine t))) := r0
  obtain ⟨o1, ho1, r1⟩ := PrintLine_run_row 1 (gyroLine g) (w.log (lineEvents o0
    w.lcd_conf.I2C_LCD_nCol (tempLine t))) (h.log _) hr1 hr (Nat.lt_of_le_of_lt (Nat.min_le_left _ _) (by decide)) hc1 hc ng fg
  have r1a : LCD_PrintLine 1 (gyroLine g)
        (w.log (lineEvents o0 w.lcd_conf.I2C_LCD_nCol (tempLine t)))
      = Res.ok () (w.log (lineEvents o0 w.lcd_conf.I2C_LCD_nCol (tempLine t)
          ++ lineEvents o1 w.lcd_conf.I2C_LCD_nCol (gyroLine g))) := by
    rw [log_log] at r1; exact r1
  obtain ⟨o2, ho2, r2⟩ := PrintLine_run_row 2 (accelLine a) (w.log (lineEvents o0
    w.lcd_conf.I2C_LCD_nCol (tempLine t) ++ lineEvents o1
    w.lcd_conf.I2C_LCD_nCol (gyroLine g))) (h.log _) hr1 hr (Nat.lt_of_le_of_lt (Nat.min_le_left _ _) (by decide)) hc1 hc na fa
  have r2a : LCD_PrintLine 2 (accelLine a)
        (w.log (lineEvents o0 w.lcd_conf.I2C_LCD_nCol (tempLine t)
          ++ lineEvents o1 w.lcd_conf.I2C_LCD_nCol (gyroLine g)))
      = Res.ok () (w.log (lineEvents o0 w.lcd_conf.I2C_LCD_nCol (tempLine t)
          ++ lineEvents o1 w.lcd_conf.I2C_LCD_nCol (gyroLine g)
          ++ lineEvents o2 w.lcd_conf.I2C_LCD_nCol (accelLine a))) := by
    rw [log_log] at r2; exact r2
  refine ⟨o0, o1, o2, ho0, ho1, ho2, ?_⟩
  rw [PrintSensorData_as_lines t g a w ht hg ha ft fg fa]
  simp only [bind_apply, r0a, andThen_ok, r1a, r2a]

theorem busWrites_lineEvents (off nCol : Nat) (s : List Char) :
    busWrites (lineEvents off nCol s) = commandWrites (0x80 ||| off) ++ textWrites (padTo nCol s) := by
  rw [lineEvents, busWrites_append, busWrites_commandEvents_u8, busWrites_stringEvents]

/-- C12: for every triple of `int16_t` inputs, on a configured device with 3
or more rows whose width holds each rendered line, and a transport that accepts
every write, `LCD_PrintSensorData t gx ax` is `LCD_PrintLine` on rows 0, 1, 2
in that order with the texts "Temp: " ++ `FormatIntDecimal t 1` ++ " C",
"Gx: " ++ `FormatIntDecimal gx 2` ++ " deg/s", "Ax: " ++ `FormatIntDecimal ax 2`
++ " g"; it returns, and each line goes out after its cursor command (rows at
0x00, 0x40, 0x14) padded with spaces to the width. For (2345, -1578, 980) the
lines are "Temp: 23.4 C", "Gx: -15.78 deg/s", "Ax: 9.80 g", padded to 20
characters on a 20-column device. -/
theorem PrintSensorData_three_lines (t gx ax : Int) (w : World) (hw : Healthy w)
    (hr3 : 3 ≤ w.lcd_conf.I2C_LCD_nRow) (hr : w.lcd_conf.I2C_LCD_nRow < 256)
    (hc : w.lcd_conf.I2C_LCD_nCol < 256)
    (ht : IsInt16 t) (hg : IsInt16 gx) (ha : IsInt16 ax)
    (ft : (tempLine t).length ≤ w.lcd_conf.I2C_LCD_nCol)
    (fg : (gyroLine gx).length ≤ w.lcd_conf.I2C_LCD_nCol)
    (fa : (accelLine ax).length ≤ w.lcd_conf.I2C_LCD_nCol) :
    (∃ vt vg va, FormatIntDecimal t 1 = some vt ∧ FormatIntDecimal gx 2 = some vg ∧
      FormatIntDecimal ax 2 = some va ∧
      tempLine t = "Temp: ".toList ++ vt ++ " C".toList ∧
      gyroLine gx = "Gx: ".toList ++ vg ++ " deg/s".toList ∧
      accelLine ax = "Ax: ".toList ++ va ++ " g".toList ∧
      LCD_PrintSensorData t gx ax w =
        (do LCD_PrintLine 0 ("Temp: ".toList ++ vt ++ " C".toList)
            LCD_PrintLine 1 ("Gx: ".toList ++ vg ++ " deg/s".toList)
            LCD_PrintLine 2 ("Ax: ".toList ++ va ++ " g".toList)) w) ∧
    (∃ w1, LCD_PrintSensorData t gx ax w = Res.ok () w1 ∧
      busWrites w1.trace = busWrites w.trace ++
        (commandWrites (0x80 ||| 0x00)
            ++ textWrites (padTo w.lcd_conf.I2C_LCD_nCol (tempLine t))
          ++ (commandWrites (0x80 ||| 0x40)
            ++ textWrites (padTo w.lcd_conf.I2C_LCD_nCol (gyroLine gx)))
          ++ (commandWrites (0x80 ||| 0x14)
            ++ textWrites (padTo w.lcd_conf.I2C_LCD_nCol (accelLine ax))))) ∧
    (tempLine 2345 = "Temp: 23.4 C".toList ∧ gyroLine (-1578) = "Gx: -15.78 deg/s".toList ∧
      accelLine 980 = "Ax: 9.80 g".toList ∧
      padTo 20 (tempLine 2345) = "Temp: 23.4 C        ".toList ∧
      padTo 20 (gyroLine (-1578)) = "Gx: -15.78 deg/s    ".toList ∧
      padTo 20 (accelLine 980) = "Ax: 9.80 g          ".toList) := by
  refine ⟨⟨valueText t 1, valueText gx 2, valueText ax 2, (FormatIntDecimal_int16 t 1 ht).1,
    (FormatIntDecimal_int16 gx 2 hg).1, (FormatIntDecimal_int16 ax 2 ha).1, rfl, rfl, rfl,
    PrintSensorData_as_lines t gx ax w ht hg ha ft fg fa⟩, ?_, by decide⟩
  obtain ⟨o0, o1, o2, h0, h1, h2, hrun⟩ :=
    PrintSensorData_run t gx ax w hw (by omega) hr hc ht hg ha ft fg fa
  have m0 : min 0 (w.lcd_conf.I2C_LCD_nRow - 1) = 0 := by omega
  have m1 : min 1 (w.lcd_conf.I2C_LCD_nRow - 1) = 1 := by omega
  have m2 : min 2 (w.lcd_conf.I2C_LCD_nRow - 1) = 2 := by omega
  rw [m0] at h0
  rw [m1] at h1
  rw [m2] at h2
  have e0 : o0 = 0x00 := (Option.some.inj h0).symm
  have e1 : o1 = 0x40 := (Option.some.inj h1).symm
  have e2 : o2 = 0x14 := (Option.some.inj h2).symm
  subst e0 e1 e2
  refine ⟨_, hrun, ?_⟩
  rw [log_trace, busWrites_append, busWrites_append, busWrites_append, busWrites_lineEvents,
    busWrites_lineEvents, busWrites_lineEvents]

theorem PrintSensorData_three_lines_witness :
    (Healthy (idleWorld 20 4) ∧ 3 ≤ (idleWorld 20 4).lcd_conf.I2C_LCD_nRow ∧
      (idleWorld 20 4).lcd_conf.I2C_LCD_nRow < 256 ∧
      (idleWorld 20 4).lcd_conf.I2C_LCD_nCol < 256 ∧
      IsInt16 2345 ∧ IsInt16 (-1578) ∧ IsInt16 980 ∧
      (tempLine 2345).length ≤ (idleWorld 20 4).lcd_conf.I2C_LCD_nCol ∧
      (gyroLine (-1578)).length ≤ (idleWorld 20 4).lcd_conf.I2C_LCD_nCol ∧
      (accelLine 980).length ≤ (idleWorld 20 4).lcd_conf.I2C_LCD_nCol) ∧
    ∃ w1, LCD_PrintSensorData 2345 (-1578) 980 (idleWorld 20 4) = Res.ok () w1 ∧
      busWrites w1.trace = busWrites (idleWorld 20 4).trace ++
        (commandWrites (0x80 ||| 0x00)
            ++ textWrites (padTo (idleWorld 20 4).lcd_conf.I2C_LCD_nCol (tempLine 2345))
          ++ (commandWrites (0x80 ||| 0x40)
            ++ textWrites (padTo (idleWorld 20 4).lcd_conf.I2C_LCD_nCol (gyroLine (-1578))))
          ++ (commandWrites (0x80 ||| 0x14)
            ++ textWrites (padTo (idleWorld 20 4).lcd_conf.I2C_LCD_nCol (accelLine 980)))) :=
  ⟨⟨idleWorld_healthy 20 4, by decide, by decide, by decide, by decide, by decide, by decide,
      by decide, by decide, by decide⟩,
   (PrintSensorData_three_lines 2345 (-1578) 980 (idleWorld 20 4) (idleWorld_healthy 20 4)
     (by decide) (by decide) (by decide) (by decide) (by decide) (by decide)
     (by decide) (by decide) (by decide)).2.1⟩

theorem eq_undef_of_isUndef {α : Type} {r : Res α} (h : r.isUndef = true) : r = Res.undef := by
  cases r with
  | ok a w => exact absurd h (by simp [Res.isUndef])
  | halt w => exact absurd h (by simp [Res.isUndef])
  | undef => rfl

/-- C18 (counterexample): on a 16 x 2 and on a 16 x 1 display, with
`gx = -10000` the "Gx" line "Gx: -100.00 deg/s" has 17 characters and does not
fit the buffer `line` of 16 + 1 characters with its NUL: the `sprintf` writes
past the buffer and `LCD_PrintSensorData` has no defined behaviour, so it is
not a call that raises no error and places its lines. -/
theorem PrintSensorData_16_columns :
    gyroLine (-10000) = "Gx: -100.00 deg/s".toList ∧
      sprintf_into (16 + 1) (gyroLine (-10000)) = none ∧
      LCD_PrintSensorData 0 (-10000) 0 (idleWorld 16 2) = Res.undef ∧
      LCD_PrintSensorData 0 (-10000) 0 (idleWorld 16 1) = Res.undef ∧
      (¬ ∃ w1, LCD_PrintSensorData 0 (-10000) 0 (idleWorld 16 2) = Res.ok () w1) ∧
      (¬ ∃ w1, LCD_PrintSensorData 0 (-10000) 0 (idleWorld 16 1) = Res.ok () w1) := by
  have h2 : LCD_PrintSensorData 0 (-10000) 0 (idleWorld 16 2) = Res.undef :=
    eq_undef_of_isUndef (by decide)
  have h1 : LCD_PrintSensorData 0 (-10000) 0 (idleWorld 16 1) = Res.undef :=
    eq_undef_of_isUndef (by decide)
  refine ⟨by decide, by decide, h2, h1, ?_, ?_⟩
  · rintro ⟨w1, hrun⟩
    rw [h2] at hrun
    exact Res.noConfusion hrun
  · rintro ⟨w1, hrun⟩
    rw [h1] at hrun
    exact Res.noConfusion hrun

/-- C18 (amended): on a configured device with 1 or 2 rows whose width holds each
rendered line, and a transport that accepts every write,
`LCD_PrintSensorData` returns normally (no error); the line for row 2 is sent
after the cursor command of row `rows - 1`, the one `LCD_PrintLine (rows-1)`
uses, so it overwrites what was written there: with 2 rows the "Gx" and then
the "Ax" line both go to address 0x40 (row 1), with 1 row all three lines go to
address 0x00 (row 0), each padded to the full width. -/
theorem PrintSensorData_few_rows (t gx ax : Int) (w : World) (hw : Healthy w)
    (hr : w.lcd_conf.I2C_LCD_nRow = 1 ∨ w.lcd_conf.I2C_LCD_nRow = 2)
    (hc : w.lcd_conf.I2C_LCD_nCol < 256)
    (ht : IsInt16 t) (hg : IsInt16 gx) (ha : IsInt16 ax)
    (ft : (tempLine t).length ≤ w.lcd_conf.I2C_LCD_nCol)
    (fg : (gyroLine gx).length ≤ w.lcd_conf.I2C_LCD_nCol)
    (fa : (accelLine ax).length ≤ w.lcd_conf.I2C_LCD_nCol) :
    ∃ w1 o1 o2,
      [0x00, 0x40, 0x14, 0x54][min 1 (w.lcd_conf.I2C_LCD_nRow - 1)]? = some o1 ∧
      [0x00, 0x40, 0x14, 0x54][w.lcd_conf.I2C_LCD_nRow - 1]? = some o2 ∧
      LCD_PrintSensorData t gx ax w = Res.ok () w1 ∧
      busWrites w1.trace = busWrites w.trace ++
        (commandWrites (0x80 ||| 0x00)
            ++ textWrites (padTo w.lcd_conf.I2C_LCD_nCol (tempLine t))
          ++ (commandWrites (0x80 ||| o1)
            ++ textWrites (padTo w.lcd_conf.I2C_LCD_nCol (gyroLine gx)))
          ++ (commandWrites (0x80 ||| o2)
            ++ textWrites (padTo w.lcd_conf.I2C_LCD_nCol (accelLine ax)))) ∧
      LCD_PrintLine 2 (accelLine ax) w
        = LCD_PrintLine (w.lcd_conf.I2C_LCD_nRow - 1) (accelLine ax) w ∧
      (w.lcd_conf.I2C_LCD_nRow = 2 → o1 = 0x40 ∧ o2 = 0x40) ∧
      (w.lcd_conf.I2C_LCD_nRow = 1 → o1 = 0x00 ∧ o2 = 0x00) := by
  have hr1 : 1 ≤ w.lcd_conf.I2C_LCD_nRow := by omega
  have hr4 : w.lcd_conf.I2C_LCD_nRow ≤ 4 := by omega
  obtain ⟨o0, o1, o2, h0, h1, h2, hrun⟩ :=
    PrintSensorData_run t gx ax w hw hr1 (by omega) hc ht hg ha ft fg fa
  have m0 : min 0 (w.lcd_conf.I2C_LCD_nRow - 1) = 0 := by omega
  have m2 : min 2 (w.lcd_conf.I2C_LCD_nRow - 1) = w.lcd_conf.I2C_LCD_nRow - 1 := by omega
  rw [m0] at h0
  rw [m2] at h2
  have e0 : o0 = 0x00 := (Option.some.inj h0).symm
  subst e0
  have hc1 : 1 ≤ w.lcd_conf.I2C_LCD_nCol := by
    have : 0 < (accelLine ax).length := by simp [accelLine]
    omega
  have na := (lines_nulFree t gx ax ht hg ha).2.2
  obtain ⟨p, hp, rp⟩ := PrintLine_run 2 (accelLine ax) w hw hr1 hr4 hc1 hc na fa
  obtain ⟨q, hq, rq⟩ := PrintLine_run (w.lcd_conf.I2C_LCD_nRow - 1) (accelLine ax) w hw
    hr1 hr4 hc1 hc na fa
  rw [m2] at hp
  rw [Nat.min_self] at hq
  have epq : p = q := Option.some.inj (hp.symm.trans hq)
  subst epq
  refine ⟨_, o1, o2, h1, h2, hrun, ?_, rp.trans rq.symm, ?_, ?_⟩
  · rw [log_trace, busWrites_append, busWrites_append, busWrites_append, busWrites_lineEvents,
      busWrites_lineEvents, busWrites_lineEvents]
  · intro h2r
    rw [h2r] at h1 h2
    exact ⟨(Option.some.inj h1).symm, (Option.some.inj h2).symm⟩
  · intro h1r
    rw [h1r] at h1 h2
    exact ⟨(Option.some.inj h1).symm, (Option.some.inj h2).symm⟩

theorem PrintSensorData_few_rows_witness :
    (Healthy (idleWorld 16 2) ∧
      ((idleWorld 16 2).lcd_conf.I2C_LCD_nRow = 1 ∨ (idleWorld 16 2).lcd_conf.I2C_LCD_nRow = 2) ∧
      (idleWorld 16 2).lcd_conf.I2C_LCD_nCol < 256 ∧
      IsInt16 2345 ∧ IsInt16 (-1578) ∧ IsInt16 980 ∧
      (tempLine 2345).length ≤ (idleWorld 16 2).lcd_conf.I2C_LCD_nCol ∧
      (gyroLine (-1578)).length ≤ (idleWorld 16 2).lcd_conf.I2C_LCD_nCol ∧
      (accelLine 980).length ≤ (idleWorld 16 2).lcd_conf.I2C_LCD_nCol) ∧
    ∃ w1 o1 o2,
      [0x00, 0x40, 0x14, 0x54][min 1 ((idleWorld 16 2).lcd_conf.I2C_LCD_nRow - 1)]? = some o1 ∧
      [0x00, 0x40, 0x14, 0x54][(idleWorld 16 2).lcd_conf.I2C_LCD_nRow - 1]? = some o2 ∧
      LCD_PrintSensorData 2345 (-1578) 980 (idleWorld 16 2) = Res.ok () w1 ∧
      busWrites w1.trace = busWrites (idleWorld 16 2).trace ++
        (commandWrites (0x80 ||| 0x00)
            ++ textWrites (padTo (idleWorld 16 2).lcd_conf.I2C_LCD_nCol (tempLine 2345))
          ++ (commandWrites (0x80 ||| o1)
            ++ textWrites (padTo (idleWorld 16 2).lcd_conf.I2C_LCD_nCol (gyroLine (-1578))))
          ++ (commandWrites (0x80 ||| o2)
            ++ textWrites (padTo (idleWorld 16 2).lcd_conf.I2C_LCD_nCol (accelLine 980)))) ∧
      LCD_PrintLine 2 (accelLine 980) (idleWorld 16 2)
        = LCD_PrintLine ((idleWorld 16 2).lcd_conf.I2C_LCD_nRow - 1) (accelLine 980)
            (idleWorld 16 2) ∧
      ((idleWorld 16 2).lcd_conf.I2C_LCD_nRow = 2 → o1 = 0x40 ∧ o2 = 0x40) ∧
      ((idleWorld 16 2).lcd_conf.I2C_LCD_nRow = 1 → o1 = 0x00 ∧ o2 = 0x00) :=
  ⟨⟨idleWorld_healthy 16 2, Or.inr rfl, by decide, by decide, by decide, by decide,
      by decide, by decide, by decide⟩,
   PrintSensorData_few_rows 2345 (-1578) 980 (idleWorld 16 2) (idleWorld_healthy 16 2)
     (Or.inr rfl) (by decide) (by decide) (by decide) (by decide)
     (by decide) (by decide) (by decide)⟩

/-! ## How the driver code is put together -/

theorem Built.mono {α : Type} {m : Exec α} {cfg : Bool} (h : Built cfg m) : Built true m := by
  induction h with
  | pure a => exact Built.pure a
  | getConf => exact Built.getConf
  | setConf c => exact Built.setConf c
  | orUndef x => exact Built.orUndef x
  | delay ms => exact Built.delay ms
  | write v => exact Built.write v
  | bind _ _ ih1 ih2 => exact Built.bind ih1 ih2

theorem built_SendNibble (n m : Nat) : Built false (LCD_SendNibble n m) :=
  Built.bind (Built.write _) (fun _ => Built.bind (Built.delay _) (fun _ => Built.write _))

theorem built_SendCommand (cmd : Nat) : Built false (LCD_SendCommand cmd) :=
  Built.bind (built_SendNibble _ _) (fun _ =>
    Built.bind (built_SendNibble _ _) (fun _ => Built.delay _))

theorem built_SendData (data : Nat) : Built false (LCD_SendData data) :=
  Built.bind (built_SendNibble _ _) (fun _ =>
    Built.bind (built_SendNibble _ _) (fun _ => Built.delay _))

theorem built_SendString (s : List Char) : Built false (LCD_SendString s) := by
  induction s with
  | nil => exact Built.delay _
  | cons c s ih =>
    unfold LCD_SendString
    split
    · exact Built.delay _
    · exact Built.bind (built_SendData _) (fun _ => ih)

theorem built_Clear : Built false LCD_Clear :=
  Built.bind (built_SendCommand _) (fun _ => Built.delay _)

theorem built_Home : Built false LCD_Home :=
  Built.bind (built_SendCommand _) (fun _ => Built.delay _)

theorem built_SetCursor (col row : Nat) : Built false (LCD_SetCursor col row) :=
  Built.bind Built.getConf (fun _ =>
    Built.bind (Built.orUndef _) (fun _ => built_SendCommand _))

theorem built_Print (s : List Char) : Built false (LCD_Print s) :=
  Built.bind built_Clear (fun _ => Built.bind built_Home (fun _ => built_SendString s))

theorem built_PrintLine (row : Nat) (text : List Char) : Built false (LCD_PrintLine row text) :=
  Built.bind Built.getConf (fun _ =>
    Built.bind (Built.orUndef _) (fun _ =>
      Built.bind (Built.orUndef _) (fun _ =>
        Built.bind (Built.orUndef _) (fun _ =>
          Built.bind (built_SetCursor _ _) (fun _ =>
            Built.bind (Built.orUndef _) (fun _ => built_SendString _))))))

theorem built_Init : Built false LCD_Init := by
  unfold LCD_Init
  repeat (first
    | exact Built.delay _
    | exact built_SendNibble _ _
    | exact built_SendCommand _
    | refine Built.bind ?_ (fun _ => ?_))

theorem built_Begin (cols row : Nat) : Built true (LCD_Begin cols row) :=
  Built.bind Built.getConf (fun _ =>
    Built.bind (Built.setConf _) (fun _ =>
      Built.bind Built.getConf (fun _ =>
        Built.bind (Built.setConf _) (fun _ => built_Init.mono))))

theorem built_PrintSensorData (t g a : Int) : Built false (LCD_PrintSensorData t g a) := by
  unfold LCD_PrintSensorData
  repeat (first
    | exact Built.getConf
    | exact Built.orUndef _
    | exact built_PrintLine _ _
    | refine Built.bind ?_ (fun _ => ?_))

@[simp] theorem andThen_halt {α β : Type} (w : World) (f : α → World → Res β) :
    (Res.halt w : Res α).andThen f = Res.halt w := rfl

theorem WriteRegister_cases (valor : Nat) (w : World) :
    LCD_PortI2C_WriteRegister valor w =
      if w.transmit_ok (busWrites w.trace).length then Res.ok () (w.log [Event.write valor])
      else Res.halt (w.log [Event.write valor,
        Event.uart "ERROR HANDLER LCD WRITE!\r\n", Event.fatal]) := by
  cases h : w.transmit_ok (busWrites w.trace).length <;>
    simp [LCD_PortI2C_WriteRegister, HAL_I2C_Master_Transmit, uartSendString, emit,
      Error_Handler, h]

/-- Code that never assigns `lcd_conf` leaves it as it was, whatever the run. -/
theorem Built.keepsConf {α : Type} {m : Exec α} {cfg : Bool} (h : Built cfg m)
    (hcfg : cfg = false) : ∀ (w : World) (c : I2C_LCD_Conf),
    (m w).conf? = some c → c = w.lcd_conf := by
  induction h with
  | pure a => intro w c hc; exact (Option.some.inj hc).symm
  | getConf => intro w c hc; exact (Option.some.inj hc).symm
  | setConf c => exact absurd hcfg (by decide)
  | orUndef x =>
    intro w c hc
    cases x with
    | none => exact absurd hc (by simp [LcdDriver.orUndef, Res.conf?])
    | some a => exact (Option.some.inj hc).symm
  | delay ms => intro w c hc; exact (Option.some.inj hc).symm
  | write v =>
    intro w c hc
    rw [WriteRegister_cases] at hc
    split at hc <;> exact (Option.some.inj hc).symm
  | bind _ _ ih1 ih2 =>
    rename_i m f _ _
    intro w c hc
    have h1 := ih1 hcfg w
    rw [bind_apply] at hc
    cases hm : m w with
    | ok a w1 =>
      rw [hm] at hc h1
      have e1 : w1.lcd_conf = w.lcd_conf := h1 _ rfl
      rw [andThen_ok] at hc
      rw [← e1]
      exact ih2 a hcfg w1 c hc
    | halt w1 =>
      rw [hm] at hc h1
      rw [andThen_halt] at hc
      exact h1 c hc
    | undef =>
      rw [hm, andThen_undef] at hc
      exact absurd hc (by simp [Res.conf?])

theorem failCut_append (tx : Nat → Bool) (es1 : List Event) : ∀ (n : Nat) (es2 : List Event),
    failCut tx n (es1 ++ es2) =
      match failCut tx n es1 with
      | some cut => some cut
      | none => (failCut tx (n + (busWrites es1).length) es2).map (es1 ++ ·) := by
  induction es1 with
  | nil => intro n es2; simp [failCut, busWrites]
  | cons e es ih =>
    intro n es2
    cases e with
    | write v =>
      by_cases ht : tx n = true
      · have hn : n + 1 + (busWrites es).length = n + ((busWrites es).length + 1) := by omega
        simp only [List.cons_append, failCut, ht, if_true, busWrites, List.length_cons]
        have ihn : failCut tx (n + 1) (es.append es2) = _ := ih (n + 1) es2
        rw [ihn, hn]
        cases failCut tx (n + 1) es <;> simp [Option.map_map, Function.comp_def]
      · simp [failCut, ht]
    | delay ms =>
      simp only [List.cons_append, failCut, busWrites]
      have ihn : failCut tx n (es.append es2) = _ := ih n es2
      rw [ihn]
      cases failCut tx n es <;> simp [Option.map_map, Function.comp_def]
    | uart msg =>
      simp only [List.cons_append, failCut, busWrites]
      have ihn : failCut tx n (es.append es2) = _ := ih n es2
      rw [ihn]
      cases failCut tx n es <;> simp [Option.map_map, Function.comp_def]
    | fatal =>
      simp only [List.cons_append, failCut, busWrites]
      have ihn : failCut tx n (es.append es2) = _ := ih n es2
      rw [ihn]
      cases failCut tx n es <;> simp [Option.map_map, Function.comp_def]

theorem fatalCount_append (xs ys : List Event) :
    fatalCount (xs ++ ys) = fatalCount xs + fatalCount ys := by
  induction xs with
  | nil => simp [fatalCount]
  | cons e es ih => cases e <;> simp [fatalCount, ih]; omega

theorem heal_heal (w : World) : w.heal.heal = w.heal := rfl

theorem heal_back (w : World) : { w.heal with transmit_ok := w.transmit_ok } = w := rfl

/-- A run on any transport follows the run on a good transport up to the
first write that fails, and ends there in the fatal handler. -/
theorem Built.sim {α : Type} {m : Exec α} {cfg : Bool} (h : Built cfg m) :
    ∀ (w : World) (a : α) (wh : World), m w.heal = Res.ok a wh →
      ∃ es, wh.trace = w.trace ++ es ∧ wh.transmit_ok = (fun _ => true) ∧ fatalCount es = 0 ∧
        (match failCut w.transmit_ok (busWrites w.trace).length es with
         | none => m w = Res.ok a { wh with transmit_ok := w.transmit_ok }
         | some cut => ∃ w1, m w = Res.halt w1 ∧ w1.trace = w.trace ++ cut) := by
  induction h with
  | pure a0 =>
    intro w a wh hrun
    cases hrun
    exact ⟨[], by simp [World.heal], rfl, rfl, rfl⟩
  | getConf =>
    intro w a wh hrun
    cases hrun
    exact ⟨[], by simp [World.heal], rfl, rfl, rfl⟩
  | setConf c =>
    intro w a wh hrun
    cases hrun
    exact ⟨[], by simp [World.heal], rfl, rfl, rfl⟩
  | orUndef x =>
    intro w a wh hrun
    cases x with
    | none => cases hrun
    | some a0 =>
      cases hrun
      exact ⟨[], by simp [World.heal], rfl, rfl, rfl⟩
  | delay ms =>
    intro w a wh hrun
    cases hrun
    exact ⟨[Event.delay ms], rfl, rfl, rfl, rfl⟩
  | write v =>
    intro w a wh hrun
    rw [WriteRegister_cases] at hrun
    simp only [World.heal, if_true] at hrun
    cases hrun
    refine ⟨[Event.write v], rfl, rfl, rfl, ?_⟩
    rw [WriteRegister_cases]
    by_cases ht : w.transmit_ok (busWrites w.trace).length = true
    · simp only [failCut, ht, if_true, Option.map_none']
      rfl
    · simp only [failCut, ht, if_false, Bool.false_eq_true]
      exact ⟨_, rfl, rfl⟩
  | bind _ _ ih1 ih2 =>
    rename_i m f _ _
    intro w b wh2 hrun
    rw [bind_apply] at hrun
    cases hm : m w.heal with
    | halt w1 => rw [hm] at hrun; cases hrun
    | undef => rw [hm] at hrun; cases hrun
    | ok a wh1 =>
      rw [hm, andThen_ok] at hrun
      obtain ⟨es1, ht1, htx1, hf1, hcut1⟩ := ih1 w a wh1 hm
      cases hc1 : failCut w.transmit_ok (busWrites w.trace).length es1 with
      | some cut =>
        rw [hc1] at hcut1
        obtain ⟨w1, hw1, hw1t⟩ := hcut1
        have hheal : ({ wh1 with transmit_ok := w.transmit_ok } : World).heal = wh1 := by
          cases wh1; simp only [World.heal] at htx1 ⊢; simp_all
        obtain ⟨es2, ht2, htx2, hf2, _⟩ := ih2 a { wh1 with transmit_ok := w.transmit_ok } b wh2
          (by rw [hheal]; exact hrun)
        refine ⟨es1 ++ es2, ?_, htx2, by rw [fatalCount_append, hf1, hf2], ?_⟩
        · rw [ht2, ← List.append_assoc]; exact congrArg (· ++ es2) ht1
        · rw [failCut_append, hc1]
          exact ⟨w1, by rw [bind_apply, hw1, andThen_halt], hw1t⟩
      | none =>
        rw [hc1] at hcut1
        have hheal : ({ wh1 with transmit_ok := w.transmit_ok } : World).heal = wh1 := by
          cases wh1; simp only [World.heal] at htx1 ⊢; simp_all
        obtain ⟨es2, ht2, htx2, hf2, hcut2⟩ := ih2 a { wh1 with transmit_ok := w.transmit_ok } b wh2
          (by rw [hheal]; exact hrun)
        have ht2a : wh2.trace = w.trace ++ (es1 ++ es2) := by
          rw [ht2, ← List.append_assoc]; exact congrArg (· ++ es2) ht1
        refine ⟨es1 ++ es2, ht2a, htx2, by rw [fatalCount_append, hf1, hf2], ?_⟩
        rw [failCut_append, hc1]
        have hlen : (busWrites ({ wh1 with transmit_ok := w.transmit_ok } : World).trace).length
            = (busWrites w.trace).length + (busWrites es1).length := by
          show (busWrites wh1.trace).length = _
          rw [ht1, busWrites_append, List.length_append]
        rw [hlen] at hcut2
        simp only at hcut2
        cases hc2 : failCut w.transmit_ok ((busWrites w.trace).length + (busWrites es1).length)
            es2 with
        | none =>
          rw [hc2] at hcut2
          simp only [Option.map_none']
          rw [bind_apply, hcut1, andThen_ok]
          exact hcut2
        | some cut =>
          rw [hc2] at hcut2
          obtain ⟨w1, hw1, hw1t⟩ := hcut2
          simp only [Option.map_some']
          refine ⟨w1, by rw [bind_apply, hcut1, andThen_ok]; exact hw1, ?_⟩
          rw [hw1t]
          show wh1.trace ++ cut = _
          rw [ht1, List.append_assoc]

theorem built_Op (op : Op) : Built true op.run := by
  cases op with
  | begin cols rows => exact built_Begin cols rows
  | clear => exact built_Clear.mono
  | home => exact built_Home.mono
  | setCursor col row => exact (built_SetCursor col row).mono
  | sendString str => exact (built_SendString str).mono
  | print str => exact (built_Print str).mono
  | printLine row text => exact (built_PrintLine row text).mono
  | printSensorData t g a => exact (built_PrintSensorData t g a).mono
  | sendNibble n m => exact (built_SendNibble n m).mono
  | sendCommand cmd => exact (built_SendCommand cmd).mono
  | sendData data => exact (built_SendData data).mono

theorem failCut_first_failure (tx : Nat → Bool) (es : List Event) : ∀ (n k : Nat),
    1 ≤ k → k ≤ (busWrites es).length →
    (∀ i, i + 1 < k → tx (n + i) = true) → tx (n + (k - 1)) = false → fatalCount es = 0 →
    ∃ cut, failCut tx n es = some cut ∧ busWrites cut = (busWrites es).take k ∧
      fatalCount cut = 1 := by
  induction es with
  | nil => intro n k h1 hk; simp [busWrites] at hk; omega
  | cons e es ih =>
    intro n k h1 hk hbefore hfail hnf
    cases e with
    | write v =>
      simp only [busWrites, List.length_cons] at hk
      simp only [fatalCount] at hnf
      rcases Nat.eq_or_lt_of_le h1 with hk1 | hk2
      · subst hk1
        have hf : tx n = false := by simpa using hfail
        exact ⟨[Event.write v, Event.uart "ERROR HANDLER LCD WRITE!\r\n", Event.fatal],
          by simp [failCut, hf], by simp [busWrites], rfl⟩
      · have ht : tx n = true := by simpa using hbefore 0 (by omega)
        obtain ⟨cut, hc, hb, hfc⟩ := ih (n + 1) (k - 1) (by omega) (by omega)
          (fun i hi => by
            have := hbefore (i + 1) (by omega)
            rwa [show n + (i + 1) = n + 1 + i by omega] at this)
          (by rwa [show n + 1 + (k - 1 - 1) = n + (k - 1) by omega]) hnf
        refine ⟨Event.write v :: cut, by simp [failCut, ht, hc], ?_, by simpa [fatalCount] using hfc⟩
        obtain ⟨j, hj⟩ : ∃ j, k = j + 1 := ⟨k - 1, by omega⟩
        subst hj
        simpa [busWrites] using hb
    | delay ms =>
      obtain ⟨cut, hc, hb, hfc⟩ := ih n k h1 hk hbefore hfail hnf
      exact ⟨Event.delay ms :: cut, by simp [failCut, hc], by simpa [busWrites] using hb,
        by simpa [fatalCount] using hfc⟩
    | uart msg =>
      obtain ⟨cut, hc, hb, hfc⟩ := ih n k h1 hk hbefore hfail hnf
      exact ⟨Event.uart msg :: cut, by simp [failCut, hc], by simpa [busWrites] using hb,
        by simpa [fatalCount] using hfc⟩
    | fatal => simp [fatalCount] at hnf

/-! ## Transport failure -/

/-- C13: take any driver operation which, on a transport that accepts every
write, returns after the bus writes `ws`. If the transport accepts its first
`k - 1` writes and fails at the `k`-th, the call ends in the fatal handler,
which is entered exactly once, and the bus writes made are exactly the first
`k` of `ws`: none is retried, none follows. -/
theorem bus_failure_is_fatal_once (op : Op) (w wh : World) (k : Nat)
    (hgood : op.run w.heal = Res.ok () wh)
    (hk1 : 1 ≤ k) (hk : (busWrites w.trace).length + k ≤ (busWrites wh.trace).length)
    (hbefore : ∀ i, i + 1 < k → w.transmit_ok ((busWrites w.trace).length + i) = true)
    (hfail : w.transmit_ok ((busWrites w.trace).length + (k - 1)) = false) :
    ∃ w1 ws, busWrites wh.trace = busWrites w.trace ++ ws ∧
      op.run w = Res.halt w1 ∧
      busWrites w1.trace = busWrites w.trace ++ ws.take k ∧
      fatalCount w1.trace = fatalCount w.trace + 1 := by
  obtain ⟨es, htr, _, hnf, hcut⟩ := (built_Op op).sim w () wh hgood
  have hws : busWrites wh.trace = busWrites w.trace ++ busWrites es := by
    rw [htr, busWrites_append]
  have hlen : k ≤ (busWrites es).length := by
    rw [hws, List.length_append] at hk
    omega
  obtain ⟨cut, hc, hb, hfc⟩ := failCut_first_failure w.transmit_ok es
    (busWrites w.trace).length k hk1 hlen hbefore hfail hnf
  rw [hc] at hcut
  obtain ⟨w1, hrun, hw1⟩ := hcut
  refine ⟨w1, busWrites es, hws, hrun, ?_, ?_⟩
  · rw [hw1, busWrites_append, hb]
  · rw [hw1, fatalCount_append, hfc]

theorem bus_failure_is_fatal_once_witness :
    (Op.run (Op.sendCommand 0x01) (flakyWorld 2).heal
        = Res.ok () ((flakyWorld 2).heal.log (commandEvents 0x01)) ∧
      1 ≤ 3 ∧
      (busWrites (flakyWorld 2).trace).length + 3
        ≤ (busWrites ((flakyWorld 2).heal.log (commandEvents 0x01)).trace).length ∧
      (∀ i, i + 1 < 3 →
        (flakyWorld 2).transmit_ok ((busWrites (flakyWorld 2).trace).length + i) = true) ∧
      (flakyWorld 2).transmit_ok ((busWrites (flakyWorld 2).trace).length + (3 - 1)) = false) ∧
    ∃ w1 ws,
      busWrites ((flakyWorld 2).heal.log (commandEvents 0x01)).trace
        = busWrites (flakyWorld 2).trace ++ ws ∧
      Op.run (Op.sendCommand 0x01) (flakyWorld 2) = Res.halt w1 ∧
      busWrites w1.trace = busWrites (flakyWorld 2).trace ++ ws.take 3 ∧
      fatalCount w1.trace = fatalCount (flakyWorld 2).trace + 1 :=
  ⟨⟨SendCommand_run 0x01 _ (fun _ => rfl), by decide, by decide,
      fun i hi => by
        have h : i = 0 ∨ i = 1 := by omega
        rcases h with rfl | rfl <;> rfl,
      by decide⟩,
   bus_failure_is_fatal_once (Op.sendCommand 0x01) (flakyWorld 2)
     ((flakyWorld 2).heal.log (commandEvents 0x01)) 3
     (SendCommand_run 0x01 _ (fun _ => rfl)) (by decide) (by decide)
     (fun i hi => by
        have h : i = 0 ∨ i = 1 := by omega
        rcases h with rfl | rfl <;> rfl)
     (by decide)⟩

theorem Begin_conf (cols rows : Nat) (w : World) :
    (LCD_Begin cols rows w).conf? = some ⟨cols, rows⟩ := by
  have hb : LCD_Begin cols rows w = LCD_Init { w with lcd_conf := ⟨cols, rows⟩ } := by
    simp only [LCD_Begin, getConf, setConf, bind_apply, andThen_ok]
  have hk := built_Init.keepsConf rfl { w with lcd_conf := ⟨cols, rows⟩ }
  have hgood := Init_run ({ w with lcd_conf := ⟨cols, rows⟩ } : World).heal (fun _ => rfl)
  obtain ⟨es, _, _, _, hcut⟩ := built_Init.sim _ _ _ hgood
  rw [hb]
  cases hi : LCD_Init { w with lcd_conf := ⟨cols, rows⟩ } with
  | ok a w1 => rw [hi] at hk; exact congrArg some (hk w1.lcd_conf rfl)
  | halt w1 => rw [hi] at hk; exact congrArg some (hk w1.lcd_conf rfl)
  | undef =>
    rw [hi] at hcut
    split at hcut
    · cases hcut
    · obtain ⟨_, h, _⟩ := hcut
      cases h

/-! ## The stored geometry -/

/-- C16: the stored geometry is written by `LCD_Begin` only. Whatever the
transport does, `LCD_Begin cols rows` ends with the geometry `(cols, rows)`,
and each of `LCD_Clear`, `LCD_Home`, `LCD_SetCursor`, `LCD_SendString`,
`LCD_Print`, `LCD_PrintLine` and `LCD_PrintSensorData`, for every argument,
ends with the geometry it started with (a run with undefined behaviour has no
final state). -/
theorem geometry_written_by_Begin_only (w : World) :
    (∀ cols rows, (LCD_Begin cols rows w).conf? = some ⟨cols, rows⟩) ∧
    (∀ c, (LCD_Clear w).conf? = some c → c = w.lcd_conf) ∧
    (∀ c, (LCD_Home w).conf? = some c → c = w.lcd_conf) ∧
    (∀ col row c, (LCD_SetCursor col row w).conf? = some c → c = w.lcd_conf) ∧
    (∀ str c, (LCD_SendString str w).conf? = some c → c = w.lcd_conf) ∧
    (∀ str c, (LCD_Print str w).conf? = some c → c = w.lcd_conf) ∧
    (∀ row text c, (LCD_PrintLine row text w).conf? = some c → c = w.lcd_conf) ∧
    (∀ t gx ax c, (LCD_PrintSensorData t gx ax w).conf? = some c → c = w.lcd_conf) :=
  ⟨fun cols rows => Begin_conf cols rows w,
   built_Clear.keepsConf rfl w,
   built_Home.keepsConf rfl w,
   fun col row => (built_SetCursor col row).keepsConf rfl w,
   fun str => (built_SendString str).keepsConf rfl w,
   fun str => (built_Print str).keepsConf rfl w,
   fun row text => (built_PrintLine row text).keepsConf rfl w,
   fun t gx ax => (built_PrintSensorData t gx ax).keepsConf rfl w⟩

theorem geometry_written_by_Begin_only_witness :
    (LCD_Clear (idleWorld 16 2)).conf? = some ⟨16, 2⟩ ∧
      (⟨16, 2⟩ : I2C_LCD_Conf) = (idleWorld 16 2).lcd_conf :=
  ⟨by rw [Clear_run _ (idleWorld_healthy 16 2)]; rfl,
   (geometry_written_by_Begin_only (idleWorld 16 2)).2.1 ⟨16, 2⟩
     (by rw [Clear_run _ (idleWorld_healthy 16 2)]; rfl)⟩

/-! ## The initialisation sequence on the bus -/

theorem hasLatchPair_cons (a b : Nat) (rest : List Nat) :
    hasLatchPair (a :: b :: rest) = ((a == 0x38 && b == 0x3C) || hasLatchPair (b :: rest)) := rfl

theorem hasLatchPair_append_false (xs : List Nat) : ∀ ys : List Nat,
    hasLatchPair xs = false → hasLatchPair ys = false → (ys.head? == some 0x3C) = false →
    hasLatchPair (xs ++ ys) = false := by
  induction xs with
  | nil => intro ys _ hy _; simpa using hy
  | cons a xs ih =>
    intro ys hx hy hh
    cases xs with
    | nil =>
      cases ys with
      | nil => rfl
      | cons b ys =>
        rw [List.singleton_append, hasLatchPair_cons, hy]
        simp only [List.head?_cons] at hh
        have hb : (b == 0x3C) = false := by
          cases hbb : (b == 0x3C)
          · rfl
          · have : b = 0x3C := by simpa using hbb
            subst this
            simp at hh
        simp [hb]
    | cons b xs =>
      rw [hasLatchPair_cons] at hx
      have h1 : (a == 0x38 && b == 0x3C) = false := by
        cases h : (a == 0x38 && b == 0x3C) <;> simp_all
      have h2 : hasLatchPair (b :: xs) = false := by
        cases h : hasLatchPair (b :: xs) <;> simp_all
      have := ih ys h2 hy hh
      rw [List.cons_append, List.cons_append, hasLatchPair_cons, h1]
      simpa using this

theorem quietWrites_append (xs ys : List Nat) (hx : quietWrites xs = true)
    (hy : quietWrites ys = true) : quietWrites (xs ++ ys) = true := by
  simp only [quietWrites, Bool.and_eq_true, Bool.not_eq_true'] at hx hy ⊢
  refine ⟨hasLatchPair_append_false xs ys hx.1 hy.1 hy.2, ?_⟩
  cases xs with
  | nil => simpa using hy.2
  | cons a xs => simpa using hx.2

theorem hasLatchPair_append_left (xs : List Nat) : ∀ ys : List Nat,
    hasLatchPair xs = true → hasLatchPair (xs ++ ys) = true := by
  induction xs with
  | nil => intro ys h; simp [hasLatchPair] at h
  | cons a xs ih =>
    intro ys h
    cases xs with
    | nil => simp [hasLatchPair] at h
    | cons b xs =>
      rw [hasLatchPair_cons] at h
      rw [List.cons_append, List.cons_append, hasLatchPair_cons]
      cases h1 : (a == 0x38 && b == 0x3C)
      · rw [h1] at h
        have := ih ys (by simpa using h)
        simpa using this
      · simp

theorem hasLatchPair_append_right (xs : List Nat) : ∀ ys : List Nat,
    hasLatchPair ys = true → hasLatchPair (xs ++ ys) = true := by
  induction xs with
  | nil => intro ys h; simpa using h
  | cons a xs ih =>
    intro ys h
    have := ih ys h
    cases hxy : xs ++ ys with
    | nil => rw [hxy] at this; simp [hasLatchPair] at this
    | cons b r =>
      rw [hxy] at this
      rw [List.cons_append, hxy, hasLatchPair_cons, this]
      simp

theorem hasLatchPair_of_infix (xs ws : List Nat) (hin : xs <:+: ws)
    (h : hasLatchPair xs = true) : hasLatchPair ws = true := by
  obtain ⟨p, s, rfl⟩ := hin
  exact hasLatchPair_append_left _ _ (hasLatchPair_append_right _ _ h)

theorem initWrites_not_infix (ws : List Nat) (h : quietWrites ws = true) :
    ¬ initWrites <:+: ws := by
  intro hin
  have h1 := hasLatchPair_of_infix initWrites ws hin (by decide)
  simp only [quietWrites, Bool.and_eq_true, Bool.not_eq_true'] at h
  rw [h1] at h
  exact absurd h.1 (by decide)

set_option maxRecDepth 100000 in
theorem quiet_frames : ∀ b : Nat, b < 256 →
    quietWrites (busWrites (dataEvents b)) = true ∧
      ((b = 0x01 ∨ b = 0x02 ∨ 128 ≤ b) → quietWrites (busWrites (commandEvents b)) = true) := by
  decide

theorem Quiet.bind {α β : Type} {m : Exec α} {f : α → Exec β} (hm : Quiet m)
    (hf : ∀ a, Quiet (f a)) : Quiet (m >>= f) := by
  intro w hw b w2 hrun
  rw [bind_apply] at hrun
  cases h1 : m w with
  | halt w1 => rw [h1] at hrun; cases hrun
  | undef => rw [h1] at hrun; cases hrun
  | ok a w1 =>
    rw [h1, andThen_ok] at hrun
    obtain ⟨hw1, es1, ht1, hq1⟩ := hm w hw a w1 h1
    obtain ⟨hw2, es2, ht2, hq2⟩ := hf a w1 hw1 b w2 hrun
    refine ⟨hw2, es1 ++ es2, ?_, ?_⟩
    · rw [ht2, ht1, List.append_assoc]
    · rw [busWrites_append]; exact quietWrites_append _ _ hq1 hq2

theorem Quiet.of_run {α : Type} {m : Exec α} (es : List Event) (a0 : α)
    (hrun : ∀ w, Healthy w → m w = Res.ok a0 (w.log es))
    (hq : quietWrites (busWrites es) = true) : Quiet m := by
  intro w hw a w1 h
  rw [hrun w hw] at h
  cases h
  exact ⟨hw.log es, es, rfl, hq⟩

theorem quiet_getConf : Quiet getConf := by
  intro w hw a w1 h
  cases h
  exact ⟨hw, [], by simp, rfl⟩

theorem quiet_orUndef {α : Type} (x : Option α) : Quiet (orUndef x) := by
  intro w hw a w1 h
  cases x with
  | none => cases h
  | some a0 => cases h; exact ⟨hw, [], by simp, rfl⟩

theorem quiet_Delay (ms : Nat) : Quiet (HAL_Delay ms) :=
  Quiet.of_run [Event.delay ms] () (fun w _ => HAL_Delay_run ms w) rfl

theorem quiet_SendData (c : Nat) (hc : c < 256) : Quiet (LCD_SendData c) :=
  Quiet.of_run (dataEvents c) () (fun w hw => SendData_run c w hw) (quiet_frames c hc).1

theorem quiet_SendCommand (b : Nat) (hb : b < 256) (hx : b = 0x01 ∨ b = 0x02 ∨ 128 ≤ b) :
    Quiet (LCD_SendCommand b) :=
  Quiet.of_run (commandEvents b) () (fun w hw => SendCommand_run b w hw) ((quiet_frames b hb).2 hx)

theorem quiet_SendString (s : List Char) : Quiet (LCD_SendString s) := by
  induction s with
  | nil => exact quiet_Delay 2
  | cons c s ih =>
    unfold LCD_SendString
    split
    · exact quiet_Delay 2
    · exact Quiet.bind (quiet_SendData _ (Nat.mod_lt _ (by decide))) (fun _ => ih)

theorem quiet_Clear : Quiet LCD_Clear :=
  Quiet.bind (quiet_SendCommand _ (by decide) (Or.inl rfl)) (fun _ => quiet_Delay 2)

theorem quiet_Home : Quiet LCD_Home :=
  Quiet.bind (quiet_SendCommand _ (by decide) (Or.inr (Or.inl rfl))) (fun _ => quiet_Delay 2)

theorem setDDRAM_byte (x : Nat) : 128 ≤ u8 (LCD_SETDDRAMADDR ||| x) := by
  have hbit : ((0x80 ||| x) % 2 ^ 8).testBit 7 = true := by
    rw [Nat.testBit_mod_two_pow, Nat.testBit_or]
    have h7 : Nat.testBit 0x80 7 = true := by decide
    simp [h7]
  exact Nat.testBit_implies_ge hbit

theorem quiet_SetCursor (col row : Nat) : Quiet (LCD_SetCursor col row) :=
  Quiet.bind quiet_getConf (fun _ =>
    Quiet.bind (quiet_orUndef _) (fun _ =>
      quiet_SendCommand _ (Nat.mod_lt _ (by decide)) (Or.inr (Or.inr (setDDRAM_byte _)))))

theorem quiet_Print (s : List Char) : Quiet (LCD_Print s) :=
  Quiet.bind quiet_Clear (fun _ => Quiet.bind quiet_Home (fun _ => quiet_SendString s))

theorem quiet_PrintLine (row : Nat) (text : List Char) : Quiet (LCD_PrintLine row text) :=
  Quiet.bind quiet_getConf (fun _ =>
    Quiet.bind (quiet_orUndef _) (fun _ =>
      Quiet.bind (quiet_orUndef _) (fun _ =>
        Quiet.bind (quiet_orUndef _) (fun _ =>
          Quiet.bind (quiet_SetCursor _ _) (fun _ =>
            Quiet.bind (quiet_orUndef _) (fun _ => quiet_SendString _))))))

theorem quiet_PrintSensorData (t g a : Int) : Quiet (LCD_PrintSensorData t g a) := by
  unfold LCD_PrintSensorData
  repeat (first
    | exact quiet_getConf
    | exact quiet_orUndef _
    | exact quiet_PrintLine _ _
    | refine Quiet.bind ?_ (fun _ => ?_))

theorem quiet_Op (op : Op) (h : op.afterBegin = true) : Quiet op.run := by
  cases op with
  | clear => exact quiet_Clear
  | home => exact quiet_Home
  | setCursor col row => exact quiet_SetCursor col row
  | sendString str => exact quiet_SendString str
  | print str => exact quiet_Print str
  | printLine row text => exact quiet_PrintLine row text
  | printSensorData t g a => exact quiet_PrintSensorData t g a
  | begin cols rows => simp [Op.afterBegin] at h
  | sendNibble n m => simp [Op.afterBegin] at h
  | sendCommand cmd => simp [Op.afterBegin] at h
  | sendData data => simp [Op.afterBegin] at h

theorem quiet_runAll (ops : List Op) (h : ∀ op ∈ ops, op.afterBegin = true) :
    Quiet (runAll ops) := by
  induction ops with
  | nil =>
    intro w hw a w1 hrun
    cases hrun
    exact ⟨hw, [], by simp, rfl⟩
  | cons op ops ih =>
    exact Quiet.bind (quiet_Op op (h op (List.mem_cons_self op ops)))
      (fun _ => ih (fun o ho => h o (List.mem_cons_of_mem op ho)))

theorem SetCursor_before_Begin (col row : Nat) (w : World)
    (h0 : w.lcd_conf.I2C_LCD_nRow = 0) : LCD_SetCursor col row w = Res.undef := by
  simp only [LCD_SetCursor, getConf, bind_apply, andThen_ok, h0, ge_iff_le, Nat.zero_le,
    if_true]
  rfl

/-! ## Initialisation state -/

/-- C17 (counterexample): from the state before any `LCD_Begin` (geometry
`{0, 0}`, nothing sent), `LCD_SendString "A"` returns after four bus writes:
an operation of the ready state does take effect on the bus before
initialisation. -/
theorem SendString_before_Begin :
    ∃ w1, LCD_SendString "A".toList (idleWorld 0 0) = Res.ok () w1 ∧
      busWrites w1.trace = [0x4D, 0x49, 0x1D, 0x19] ∧ busWrites w1.trace ≠ [] := by
  refine ⟨_, SendString_run "A".toList (by decide) (idleWorld 0 0) (idleWorld_healthy 0 0),
    by decide, by decide⟩

/-- C17 (amended): the driver keeps no initialisation state and does not gate
its operations. On a transport that accepts every write, `LCD_Begin` returns
after the full ordered initialisation sequence, and no sequence of the other
public operations that returns has put that sequence on the bus. Before any
`LCD_Begin`, `LCD_Clear`, `LCD_Home`, `LCD_SendString` and `LCD_Print` transmit
as usual, and `LCD_SetCursor` reads its row table out of bounds. -/
theorem init_sequence_only_by_Begin (w : World) (hw : Healthy w) :
    (∀ cols rows, ∃ w1, LCD_Begin cols rows w = Res.ok () w1 ∧
      busWrites w1.trace = busWrites w.trace ++ initWrites) ∧
    (∀ (ops : List Op) (w1 : World), (∀ op ∈ ops, op.afterBegin = true) →
      runAll ops w = Res.ok () w1 →
      ∃ ws, busWrites w1.trace = busWrites w.trace ++ ws ∧ ¬ initWrites <:+: ws) ∧
    (∀ (str : List Char), ∃ w1 w2 w3 w4,
      LCD_Clear (idleWorld 0 0) = Res.ok () w1 ∧ busWrites w1.trace = commandWrites 0x01 ∧
      LCD_Home (idleWorld 0 0) = Res.ok () w2 ∧ busWrites w2.trace = commandWrites 0x02 ∧
      LCD_SendString str (idleWorld 0 0) = Res.ok () w3 ∧
      busWrites w3.trace = textWrites (cText str) ∧
      LCD_Print str (idleWorld 0 0) = Res.ok () w4 ∧
      busWrites w4.trace = commandWrites 0x01 ++ commandWrites 0x02 ++ textWrites (cText str)) ∧
    (∀ col row, LCD_SetCursor col row (idleWorld 0 0) = Res.undef) := by
  refine ⟨?_, ?_, ?_, fun col row => SetCursor_before_Begin col row _ rfl⟩
  · intro cols rows
    refine ⟨_, Begin_run cols rows w hw, ?_⟩
    rw [log_trace, busWrites_append]
    rfl
  · intro ops w1 hops hrun
    obtain ⟨_, es, htr, hq⟩ := quiet_runAll ops hops w hw () w1 hrun
    exact ⟨busWrites es, by rw [htr, busWrites_append], initWrites_not_infix _ hq⟩
  · intro str
    have h0 := idleWorld_healthy 0 0
    refine ⟨_, _, _, _, Clear_run _ h0, ?_, Home_run _ h0, ?_, SendString_run_any str _ h0, ?_,
      Print_run str _ h0, ?_⟩
    · rw [log_trace, busWrites_append, busWrites_command_delay _ (by decide)]; rfl
    · rw [log_trace, busWrites_append, busWrites_command_delay _ (by decide)]; rfl
    · rw [log_trace, busWrites_append, busWrites_stringEvents]; rfl
    · rw [log_trace, busWrites_append, busWrites_append, busWrites_append,
        busWrites_command_delay _ (by decide), busWrites_command_delay _ (by decide),
        busWrites_stringEvents]
      rfl

theorem init_sequence_only_by_Begin_witness :
    Healthy (idleWorld 0 0) ∧
    ∃ w1, LCD_Begin 16 2 (idleWorld 0 0) = Res.ok () w1 ∧
      busWrites w1.trace = busWrites (idleWorld 0 0).trace ++ initWrites :=
  ⟨idleWorld_healthy 0 0,
   (init_sequence_only_by_Begin (idleWorld 0 0) (idleWorld_healthy 0 0)).1 16 2⟩

set_option maxRecDepth 100000 in
theorem toDigits_length_exact : ∀ n : Nat, n < 328 →
    (Nat.toDigits 10 n).length = if n < 10 then 1 else if n < 100 then 2 else 3 := by
  decide

theorem digitsText_two_length (n : Nat) (hn : n ≤ 32768) :
    (digitsText n 2).length
      = (if n / 100 < 10 then 1 else if n / 100 < 100 then 2 else 3) + 3 := by
  rw [digitsText, if_pos rfl, printf_02d_two_digits _ (Nat.mod_lt _ (by decide))]
  simp only [List.length_append, List.length_cons, List.length_nil]
  rw [toDigits_length_exact _ (by omega)]

theorem gyroLine_length (gx : Int) (h : IsInt16 gx) :
    (gyroLine gx).length ≤ 17 ∧ ((gyroLine gx).length = 17 ↔ gx ≤ -10000) := by
  have hlen : (gyroLine gx).length = (valueText gx 2).length + 10 := by
    simp only [gyroLine, List.length_append]
    have h1 : "Gx: ".toList.length = 4 := by decide
    have h2 : " deg/s".toList.length = 6 := by decide
    omega
  rcases int16_cases gx h with ⟨n, hx, hn⟩ | ⟨n, hx, h0, hn⟩
  · subst hx
    have := digitsText_two_length n (by omega)
    rw [hlen, valueText_ofNat, this]
    constructor
    · split <;> [omega; (split <;> omega)]
    · constructor
      · intro h17
        split at h17
        · omega
        · split at h17 <;> omega
      · intro hneg; omega
  · subst hx
    have := digitsText_two_length n hn
    rw [hlen, valueText_neg n 2 h0 (by omega), List.length_cons, this]
    constructor
    · split <;> [omega; (split <;> omega)]
    · constructor
      · intro h17
        split at h17
        · omega
        · split at h17 <;> omega
      · intro hneg
        have h100 : ¬ (n / 100 < 10) := by omega
        have h1000 : ¬ (n / 100 < 100) := by omega
        rw [if_neg h100, if_neg h1000]

theorem lines_length (t gx ax : Int) (ht : IsInt16 t) (hg : IsInt16 gx) (ha : IsInt16 ax) :
    (tempLine t).length ≤ 17 ∧ (gyroLine gx).length ≤ 17 ∧ (accelLine ax).length ≤ 17 := by
  have h1 := (FormatIntDecimal_int16 t 1 ht).2.2
  have h3 := (FormatIntDecimal_int16 ax 2 ha).2.2
  have e1 : "Temp: ".toList.length = 6 := by decide
  have e2 : " C".toList.length = 2 := by decide
  have e3 : "Ax: ".toList.length = 4 := by decide
  have e4 : " g".toList.length = 2 := by decide
  refine ⟨?_, (gyroLine_length gx hg).1, ?_⟩
  · simp only [tempLine, List.length_append]; omega
  · simp only [accelLine, List.length_append]; omega

/-! ## Sizes of the sensor texts -/

/-- C22: for every triple of `int16_t` inputs, each value formatted inside
`LCD_PrintSensorData` has at most 7 characters and each of the three lines at
most 17; the "Gx" line has 17 exactly when `gx <= -10000`. Hence the text and
its NUL always fit the 10-byte `value` buffer, and they fit the `line` buffer
of `columns + 1` bytes whenever `columns >= 17`; with such a width (and a
stored row count of at least 1, on a transport that accepts every write) the
whole call returns. -/
theorem sensor_texts_fit (t gx ax : Int) (ht : IsInt16 t) (hg : IsInt16 gx) (ha : IsInt16 ax) :
    (∃ vt vg va, (FormatIntDecimal t 1 = some vt ∧ FormatIntDecimal gx 2 = some vg ∧
        FormatIntDecimal ax 2 = some va) ∧
      (vt.length ≤ 7 ∧ vg.length ≤ 7 ∧ va.length ≤ 7) ∧
      (sprintf_into 10 vt = some vt ∧ sprintf_into 10 vg = some vg ∧
        sprintf_into 10 va = some va) ∧
      (tempLine t = "Temp: ".toList ++ vt ++ " C".toList ∧
        gyroLine gx = "Gx: ".toList ++ vg ++ " deg/s".toList ∧
        accelLine ax = "Ax: ".toList ++ va ++ " g".toList)) ∧
    ((tempLine t).length ≤ 17 ∧ (gyroLine gx).length ≤ 17 ∧ (accelLine ax).length ≤ 17) ∧
    ((gyroLine gx).length = 17 ↔ gx ≤ -10000) ∧
    (∀ columns, 17 ≤ columns →
      sprintf_into (columns + 1) (tempLine t) = some (tempLine t) ∧
      sprintf_into (columns + 1) (gyroLine gx) = some (gyroLine gx) ∧
      sprintf_into (columns + 1) (accelLine ax) = some (accelLine ax)) ∧
    (∀ w : World, Healthy w → 17 ≤ w.lcd_conf.I2C_LCD_nCol → w.lcd_conf.I2C_LCD_nCol < 256 →
      1 ≤ w.lcd_conf.I2C_LCD_nRow → w.lcd_conf.I2C_LCD_nRow < 256 →
      ∃ w1, LCD_PrintSensorData t gx ax w = Res.ok () w1) := by
  obtain ⟨l1, l2, l3⟩ := lines_length t gx ax ht hg ha
  obtain ⟨f1, _, n1⟩ := FormatIntDecimal_int16 t 1 ht
  obtain ⟨f2, _, n2⟩ := FormatIntDecimal_int16 gx 2 hg
  obtain ⟨f3, _, n3⟩ := FormatIntDecimal_int16 ax 2 ha
  refine ⟨⟨valueText t 1, valueText gx 2, valueText ax 2, ⟨f1, f2, f3⟩, ⟨n1, n2, n3⟩,
    ⟨sprintf_text _ n1, sprintf_text _ n2, sprintf_text _ n3⟩, ⟨rfl, rfl, rfl⟩⟩,
    ⟨l1, l2, l3⟩, (gyroLine_length gx hg).2, ?_, ?_⟩
  · intro columns hc
    exact ⟨sprintf_line columns _ (by omega), sprintf_line columns _ (by omega),
      sprintf_line columns _ (by omega)⟩
  · intro w hw hc17 hc hr1 hr
    obtain ⟨o0, o1, o2, _, _, _, hrun⟩ := PrintSensorData_run t gx ax w hw hr1 hr hc ht hg ha
      (by omega) (by omega) (by omega)
    exact ⟨_, hrun⟩

theorem sensor_texts_fit_witness :
    (IsInt16 2345 ∧ IsInt16 (-32768) ∧ IsInt16 980) ∧
    ((tempLine 2345).length ≤ 17 ∧ (gyroLine (-32768)).length ≤ 17 ∧
      (accelLine 980).length ≤ 17) ∧
    ((gyroLine (-32768)).length = 17 ↔ (-32768 : Int) ≤ -10000) :=
  ⟨⟨by decide, by decide, by decide⟩,
   (sensor_texts_fit 2345 (-32768) 980 (by decide) (by decide) (by decide)).2.1,
   (sensor_texts_fit 2345 (-32768) 980 (by decide) (by decide) (by decide)).2.2.1⟩

set_option maxRecDepth 100000 in
theorem commandByteOf_commandWrites : ∀ b : Nat, b < 256 →
    commandByteOf (commandWrites b) = b := by
  decide

set_option maxRecDepth 100000 in
theorem setDDRAM_or : ∀ a : Nat, a < 128 →
    0x80 ||| a = 0x80 + a ∧ (0x80 ||| a) &&& 0x7F = a := by
  decide

theorem SetCursor_in_range (col row : Nat) (w : World) (h : Healthy w)
    (hc20 : w.lcd_conf.I2C_LCD_nCol ≤ 20) (hr4 : w.lcd_conf.I2C_LCD_nRow ≤ 4)
    (hcol : col < w.lcd_conf.I2C_LCD_nCol) (hrow : row < w.lcd_conf.I2C_LCD_nRow) :
    ∃ off, [0x00, 0x40, 0x14, 0x54][row]? = some off ∧ off + col < 0x80 ∧
      LCD_SetCursor col row w = LCD_SendCommand (0x80 ||| (off + col)) w ∧
      LCD_SetCursor col row w = Res.ok () (w.log (commandEvents (0x80 ||| (off + col)))) := by
  obtain ⟨off, hoff, hrun⟩ := SetCursor_run col row w h (by omega) hr4 (by omega) (by omega)
  have m1 : min row (w.lcd_conf.I2C_LCD_nRow - 1) = row := by omega
  have m2 : min col (w.lcd_conf.I2C_LCD_nCol - 1) = col := by omega
  rw [m1] at hoff
  rw [m2] at hrun
  have hoff84 : off ≤ 0x54 := by
    have hr : row < 4 := by omega
    interval_cases row <;> simp at hoff <;> omega
  have hlt : off + col < 0x80 := by omega
  have hb : 0x80 ||| (off + col) < 256 := by
    rw [(setDDRAM_or _ hlt).1]; omega
  have hu : u8 (0x80 ||| (col + off)) = 0x80 ||| (off + col) := by
    rw [Nat.add_comm col off]
    exact Nat.mod_eq_of_lt hb
  rw [hu] at hrun
  exact ⟨off, hoff, hlt, by rw [hrun, SendCommand_run _ w h], hrun⟩

theorem position_of_address (row row1 col col1 off off1 : Nat)
    (hoff : [0x00, 0x40, 0x14, 0x54][row]? = some off)
    (hoff1 : [0x00, 0x40, 0x14, 0x54][row1]? = some off1)
    (hcol : col < 20) (hcol1 : col1 < 20) (heq : off + col = off1 + col1) :
    col = col1 ∧ row = row1 := by
  have hr : row < 4 := by
    by_contra hcon
    have : [0x00, 0x40, 0x14, 0x54][row]? = none := List.getElem?_eq_none (by simp; omega)
    rw [this] at hoff
    cases hoff
  have hr1 : row1 < 4 := by
    by_contra hcon
    have : [0x00, 0x40, 0x14, 0x54][row1]? = none := List.getElem?_eq_none (by simp; omega)
    rw [this] at hoff1
    cases hoff1
  interval_cases row <;> interval_cases row1 <;> simp at hoff hoff1 <;> omega

/-! ## Cursor addresses -/

/-- C23: on a configured geometry with at most 20 columns and at most 4 rows
(at least one of each, as there is a position in range), and a transport that
accepts every write, two in-range positions `(col, row)` and
`(col1, row1)` make `LCD_SetCursor` send the commands of byte
`0x80 | (rowOffset[row] + col)` and `0x80 | (rowOffset[row1] + col1)`; these
bytes, and the bus writes that carry them, are the same only if the positions
are equal. The address `rowOffset[row] + col` is below 0x80, so the byte is
`0x80 + address` and its low seven bits are the address. -/
theorem SetCursor_injective (col row col1 row1 : Nat) (w : World) (hw : Healthy w)
    (hc20 : w.lcd_conf.I2C_LCD_nCol ≤ 20) (hr4 : w.lcd_conf.I2C_LCD_nRow ≤ 4)
    (hcol : col < w.lcd_conf.I2C_LCD_nCol) (hrow : row < w.lcd_conf.I2C_LCD_nRow)
    (hcol1 : col1 < w.lcd_conf.I2C_LCD_nCol) (hrow1 : row1 < w.lcd_conf.I2C_LCD_nRow) :
    ∃ off off1 w1 w2,
      [0x00, 0x40, 0x14, 0x54][row]? = some off ∧
      [0x00, 0x40, 0x14, 0x54][row1]? = some off1 ∧
      LCD_SetCursor col row w = LCD_SendCommand (0x80 ||| (off + col)) w ∧
      LCD_SetCursor col1 row1 w = LCD_SendCommand (0x80 ||| (off1 + col1)) w ∧
      LCD_SetCursor col row w = Res.ok () w1 ∧
      LCD_SetCursor col1 row1 w = Res.ok () w2 ∧
      busWrites w1.trace = busWrites w.trace ++ commandWrites (0x80 ||| (off + col)) ∧
      busWrites w2.trace = busWrites w.trace ++ commandWrites (0x80 ||| (off1 + col1)) ∧
      (0x80 ||| (off + col) = 0x80 ||| (off1 + col1) → col = col1 ∧ row = row1) ∧
      (busWrites w1.trace = busWrites w2.trace → col = col1 ∧ row = row1) ∧
      off + col < 0x80 ∧
      0x80 ||| (off + col) = 0x80 + (off + col) ∧
      (0x80 ||| (off + col)) &&& 0x7F = off + col := by
  obtain ⟨off, hoff, hlt, hcmd, hrun⟩ := SetCursor_in_range col row w hw hc20 hr4 hcol hrow
  obtain ⟨off1, hoff1, hlt1, hcmd1, hrun1⟩ :=
    SetCursor_in_range col1 row1 w hw hc20 hr4 hcol1 hrow1
  have hor := setDDRAM_or _ hlt
  have hor1 := setDDRAM_or _ hlt1
  have hb : 0x80 ||| (off + col) < 256 := by rw [hor.1]; omega
  have hb1 : 0x80 ||| (off1 + col1) < 256 := by rw [hor1.1]; omega
  have hbytes : 0x80 ||| (off + col) = 0x80 ||| (off1 + col1) → col = col1 ∧ row = row1 := by
    intro heq
    rw [hor.1, hor1.1] at heq
    exact position_of_address row row1 col col1 off off1 hoff hoff1 (by omega) (by omega)
      (by omega)
  have hw1 : busWrites (w.log (commandEvents (0x80 ||| (off + col)))).trace
      = busWrites w.trace ++ commandWrites (0x80 ||| (off + col)) := by
    rw [log_trace, busWrites_append, (command_bytes _ hb).1]
  have hw2 : busWrites (w.log (commandEvents (0x80 ||| (off1 + col1)))).trace
      = busWrites w.trace ++ commandWrites (0x80 ||| (off1 + col1)) := by
    rw [log_trace, busWrites_append, (command_bytes _ hb1).1]
  refine ⟨off, off1, _, _, hoff, hoff1, hcmd, hcmd1, hrun, hrun1, hw1, hw2, hbytes, ?_,
    hlt, hor.1, hor.2⟩
  intro hsame
  rw [hw1, hw2] at hsame
  have hcw := List.append_cancel_left hsame
  have hdec := congrArg commandByteOf hcw
  rw [commandByteOf_commandWrites _ hb, commandByteOf_commandWrites _ hb1] at hdec
  exact hbytes hdec

theorem SetCursor_injective_witness :
    (Healthy (idleWorld 20 4) ∧
      (idleWorld 20 4).lcd_conf.I2C_LCD_nCol ≤ 20 ∧
      (idleWorld 20 4).lcd_conf.I2C_LCD_nRow ≤ 4 ∧
      19 < (idleWorld 20 4).lcd_conf.I2C_LCD_nCol ∧ 0 < (idleWorld 20 4).lcd_conf.I2C_LCD_nRow ∧
      0 < (idleWorld 20 4).lcd_conf.I2C_LCD_nCol ∧ 2 < (idleWorld 20 4).lcd_conf.I2C_LCD_nRow) ∧
    ∃ off off1 w1 w2,
      [0x00, 0x40, 0x14, 0x54][0]? = some off ∧
      [0x00, 0x40, 0x14, 0x54][2]? = some off1 ∧
      LCD_SetCursor 19 0 (idleWorld 20 4) = LCD_SendCommand (0x80 ||| (off + 19)) (idleWorld 20 4) ∧
      LCD_SetCursor 0 2 (idleWorld 20 4) = LCD_SendCommand (0x80 ||| (off1 + 0)) (idleWorld 20 4) ∧
      LCD_SetCursor 19 0 (idleWorld 20 4) = Res.ok () w1 ∧
      LCD_SetCursor 0 2 (idleWorld 20 4) = Res.ok () w2 ∧
      busWrites w1.trace = busWrites (idleWorld 20 4).trace ++ commandWrites (0x80 ||| (off + 19)) ∧
      busWrites w2.trace = busWrites (idleWorld 20 4).trace ++ commandWrites (0x80 ||| (off1 + 0)) ∧
      (0x80 ||| (off + 19) = 0x80 ||| (off1 + 0) → 19 = 0 ∧ 0 = 2) ∧
      (busWrites w1.trace = busWrites w2.trace → 19 = 0 ∧ 0 = 2) ∧
      off + 19 < 0x80 ∧
      0x80 ||| (off + 19) = 0x80 + (off + 19) ∧
      (0x80 ||| (off + 19)) &&& 0x7F = off + 19 :=
  ⟨⟨idleWorld_healthy 20 4, by decide, by decide, by decide, by decide, by decide, by decide⟩,
   SetCursor_injective 19 0 0 2 (idleWorld 20 4) (idleWorld_healthy 20 4)
     (by decide) (by decide) (by decide) (by decide) (by decide) (by decide)⟩

theorem store_some (buf : Buf) (i : Nat) (c : Char) (h : i < buf.length) :
    ∃ b, buf.store i c = some b ∧ b.length = buf.length := by
  refine ⟨buf.set i (some c), by simp [Buf.store, h], by simp⟩

theorem strncpy_from_some : ∀ (n : Nat) (dest : Buf) (i : Nat) (src : List Char),
    i + n ≤ dest.length → ∃ b, strncpy_from dest i src n = some b ∧ b.length = dest.length := by
  intro n
  induction n with
  | zero => intro dest i src _; exact ⟨dest, by simp [strncpy_from], rfl⟩
  | succ k ih =>
    intro dest i src hlen
    have step : ∀ (c : Char) (s : List Char),
        ∃ b, ((dest.store i c).bind fun d => strncpy_from d (i + 1) s k) = some b
          ∧ b.length = dest.length := by
      intro c s
      obtain ⟨d, hd, hdl⟩ := store_some dest i c (by omega)
      obtain ⟨b, hb, hbl⟩ := ih d (i + 1) s (by omega)
      exact ⟨b, by rw [hd]; exact hb, by omega⟩
    cases src with
    | nil => simpa [strncpy_from] using step '\x00' []
    | cons c s =>
      by_cases hc : c = '\x00'
      · simpa [strncpy_from, hc] using step '\x00' []
      · simpa [strncpy_from, hc] using step c s

theorem fill_spaces_some : ∀ (k : Nat) (buf : Buf) (i : Nat),
    i + k ≤ buf.length → ∃ b, fill_spaces buf i k = some b ∧ b.length = buf.length := by
  intro k
  induction k with
  | zero => intro buf i _; exact ⟨buf, by simp [fill_spaces], rfl⟩
  | succ k ih =>
    intro buf i hlen
    obtain ⟨d, hd, hdl⟩ := store_some buf i ' ' (by omega)
    obtain ⟨b, hb, hbl⟩ := ih d (i + 1) (by omega)
    exact ⟨b, by simp [fill_spaces, hd, hb], by omega⟩

theorem store_indices_bound (nCol : Nat) (text : List Char) :
    (∀ i ∈ PrintLine_store_indices nCol text, i ≤ nCol) ↔
      (strlen text ≤ nCol ∨ 19 ≤ nCol) := by
  unfold PrintLine_store_indices
  constructor
  · intro h
    by_contra hcon
    have h1 : strlen text > nCol := by omega
    have h2 : nCol < 19 := by omega
    have := h 19 (by simp [h1])
    omega
  · intro h i hi
    simp only [List.mem_append, List.mem_range, List.mem_range', List.mem_singleton] at hi
    by_cases hl : strlen text > nCol
    · simp only [hl, if_true] at hi
      rcases hi with (hi | ⟨_, hi⟩) | hi <;> omega
    · simp only [hl, if_false] at hi
      rcases hi with (hi | ⟨_, hi⟩) | hi <;> omega

theorem PrintLine_buffer_some_iff (nCol : Nat) (text : List Char) :
    (∃ buf, PrintLine_buffer nCol text = some buf) ↔
      (∀ i ∈ PrintLine_store_indices nCol text, i ≤ nCol) := by
  rw [store_indices_bound]
  unfold PrintLine_buffer
  constructor
  · rintro ⟨buf, hbuf⟩
    by_contra hcon
    have h1 : strlen text > nCol := by omega
    have hcopy : strncpy (Buf.alloc (nCol + 1)) text 20 = none :=
      strncpy_from_overflow 20 _ 0 text (by decide) (by simp [Buf.alloc]; omega)
    simp [h1, hcopy] at hbuf
  · intro h
    generalize hlen : (if strlen text > nCol then 20 else strlen text) = len
    have hle : len ≤ nCol + 1 := by
      rw [← hlen]; split <;> omega
    obtain ⟨b1, hb1, hl1⟩ := strncpy_from_some len (Buf.alloc (nCol + 1)) 0 text
      (by simp [Buf.alloc]; omega)
    have hl1a : b1.length = nCol + 1 := by rw [hl1]; simp [Buf.alloc]
    obtain ⟨b2, hb2, hl2⟩ := fill_spaces_some (nCol - len) b1 len (by omega)
    obtain ⟨b3, hb3, _⟩ := store_some b2 nCol '\x00' (by omega)
    refine ⟨b3, ?_⟩
    simp only [hlen]
    rw [show strncpy (Buf.alloc (nCol + 1)) text len = some b1 from hb1]
    simp [hb2, hb3]

theorem PrintLine_through_buffer (row : Nat) (text : List Char) (w : World) :
    LCD_PrintLine row text w =
      match PrintLine_buffer w.lcd_conf.I2C_LCD_nCol text with
      | none => Res.undef
      | some buf =>
        (do LCD_SetCursor 0 row
            let str ← orUndef buf.cstr
            LCD_SendString str) w := by
  simp only [LCD_PrintLine, PrintLine_buffer, getConf, bind_apply, andThen_ok]
  cases h1 : strncpy (Buf.alloc (w.lcd_conf.I2C_LCD_nCol + 1)) text
      (if strlen text > w.lcd_conf.I2C_LCD_nCol then 20 else strlen text) with
  | none => rfl
  | some b1 =>
    simp only [Option.bind, orUndef_some, andThen_ok]
    cases h2 : fill_spaces b1 (if strlen text > w.lcd_conf.I2C_LCD_nCol then 20 else strlen text)
        (w.lcd_conf.I2C_LCD_nCol
          - if strlen text > w.lcd_conf.I2C_LCD_nCol then 20 else strlen text) with
    | none => rfl
    | some b2 =>
      simp only [bind_apply, orUndef_some, andThen_ok]
      cases h3 : b2.store w.lcd_conf.I2C_LCD_nCol '\x00' with
      | none => rfl
      | some b3 => rfl

/-! ## Bounds of the line buffer -/

/-- C21 (failing input): on a 16-column display, for a text of 17 characters,
`LCD_PrintLine` writes its buffer `char buf[17]` at the indices 0 to 19 (the
20 characters `strncpy` copies) and then at 16: the writes at 17, 18 and 19
are outside the buffer. -/
theorem PrintLine_stores_17_on_16 :
    PrintLine_store_indices 16 "ABCDEFGHIJKLMNOPQ".toList
      = [0, 1, 2, 3, 4, 5, 6, 7, 8, 9, 10, 11, 12, 13, 14, 15, 16, 17, 18, 19, 16] ∧
    ¬ (∀ i ∈ PrintLine_store_indices 16 "ABCDEFGHIJKLMNOPQ".toList, i ≤ 16) ∧
    (Buf.alloc (16 + 1)).length = 17 ∧
    PrintLine_buffer 16 "ABCDEFGHIJKLMNOPQ".toList = none := by
  refine ⟨by decide, ?_, by decide, by decide⟩
  intro h
  exact absurd (h 19 (by decide)) (by decide)

end LcdDriver
